import Mathlib

/-!
Verification development for the jobformer repository.

This file gives a shallow embedding, in Lean 4, of the core of the
job-scraping pipeline:

* `src/jobscraper/db.py` — the job identity store (`JobDB.upsert_jobs`);
* `src/jobscraper/url_canon.py` — URL canonicalization (`canonicalize_url`),
  together with the parts of Python's `urllib.parse` (3.11) that it calls;
* `src/jobscraper/text_extraction.py` — text classification, HTTP/CDP
  fetching and the extraction engine (`extract_text_for_urls`);
* `src/jobscraper/cdp_session.py` — the browser session manager
  (`get_cdp_browser`).

External effects (the network, the real browser, the HTML parser) are
modelled as explicit oracle functions passed in as parameters; SQLite
tables are modelled as association lists; timestamps are natural numbers.
Unicode case-folding and `str.strip` are modelled over their ASCII
behavior (all inputs appearing in concrete evaluations are ASCII).
-/

namespace JobFormer

/-! ## String helpers shared by several modules -/

/-- `occursIn pat s`: Python's `pat in s` substring test on char lists. -/
def occursIn (pat : List Char) : List Char → Bool
  | [] => pat.isEmpty
  | c :: rest => pat.isPrefixOf (c :: rest) || occursIn pat rest

/-- Substring test on strings (Python `pat in s`). -/
def strOccursIn (pat s : String) : Bool := occursIn pat.data s.data

/-- ASCII lowering of a char list (models Python `str.lower` on ASCII data). -/
def toLowerL (l : List Char) : List Char := l.map Char.toLower

/-- Characters stripped by Python `str.strip()` (ASCII whitespace). -/
def isPySpace (c : Char) : Bool :=
  c = ' ' || c = '\t' || c = '\n' || c = '\r' || c = '\x0b' || c = '\x0c'

/-- Python `str.strip()` on a char list (ASCII whitespace model). -/
def pyStripL (l : List Char) : List Char :=
  ((l.dropWhile isPySpace).reverse.dropWhile isPySpace).reverse

/-- Python `str.strip()` on strings. -/
def pyStrip (s : String) : String := ⟨pyStripL s.data⟩

/-! ## Job identity store — `src/jobscraper/db.py`

A `Job` is the input dataclass (`models.Job`); a `JobRecord` is one row of
the `jobs` table.  The table is modelled as a `List JobRecord` in insertion
order; the UNIQUE index on `(source, external_id)` is reflected by the
conflict branch of `upsertOne`.  Timestamps are `Nat` (the single `now`
taken at the top of `upsert_jobs`). -/

structure Job where
  source : String
  external_id : String
  title : String
  company : String
  location : String
  url : String
  posted_at : Option Nat
deriving DecidableEq

structure JobRecord where
  source : String
  external_id : String
  title : String
  company : String
  location : String
  url : String
  posted_at : Option Nat
  first_seen_at : Nat
  last_seen_at : Nat
deriving DecidableEq

/-- The `bad_title` predicate of `JobDB.upsert_jobs` (db.py lines 94–99):
stored title is blank or the `"(unknown)"` sentinel after `strip()`, or its
lowering contains one of the known-garbage substrings. -/
def badTitle (existing_title : String) : Bool :=
  (pyStrip existing_title = "" || pyStrip existing_title = "(unknown)")
  || occursIn "annonces trouv".data (toLowerL existing_title.data)
  || occursIn "offres et demandes".data (toLowerL existing_title.data)
  || occursIn "offres disponibles".data (toLowerL existing_title.data)

/-- Key match used by both the SELECT and the UPDATE in the conflict branch. -/
def keyMatch (src eid : String) (r : JobRecord) : Bool :=
  r.source = src && r.external_id = eid

/-- The UPDATE statement of the conflict branch of `upsert_jobs` applied to a
row `r` it matches, where `sel` is the row previously read back by the SELECT
(`existing_title` / `existing_posted_at`). -/
def updateRecord (now : Nat) (j : Job) (sel r : JobRecord) : JobRecord :=
  let set_title :=
    if badTitle sel.title && decide (j.title ≠ "") && decide (j.title ≠ "(unknown)")
    then j.title else sel.title
  let set_posted_at :=
    if sel.posted_at = none && j.posted_at.isSome then j.posted_at else sel.posted_at
  { r with
    last_seen_at := now
    title := set_title
    company := if r.company = "" then j.company else r.company
    location := if r.location = "" then j.location else r.location
    url := j.url
    posted_at := set_posted_at }

/-- The fresh row built by the INSERT branch of `upsert_jobs`. -/
def insertRecord (now : Nat) (j : Job) : JobRecord :=
  { source := j.source, external_id := j.external_id, title := j.title
    company := j.company, location := j.location, url := j.url
    posted_at := j.posted_at, first_seen_at := now, last_seen_at := now }

/-- One iteration of the `for job in jobs` loop of `upsert_jobs`: try the
INSERT; on a unique-key conflict run the SELECT + UPDATE.  Returns the new
store and whether the job was newly inserted. -/
def upsertOne (now : Nat) (store : List JobRecord) (j : Job) :
    List JobRecord × Bool :=
  match store.find? (keyMatch j.source j.external_id) with
  | some sel =>
      (store.map fun r =>
        if keyMatch j.source j.external_id r then updateRecord now j sel r else r,
       false)
  | none => (store ++ [insertRecord now j], true)

/-- `JobDB.upsert_jobs`: fold the loop over the input sequence, collecting the
newly inserted jobs in input order. -/
def upsertJobs (now : Nat) (store : List JobRecord) : List Job → List JobRecord × List Job
  | [] => (store, [])
  | j :: rest =>
      let step := upsertOne now store j
      let tail := upsertJobs now step.1 rest
      (tail.1, if step.2 then j :: tail.2 else tail.2)

/-- Keys present in a store, in row order. -/
def storeKeys (store : List JobRecord) : List (String × String) :=
  store.map fun r => (r.source, r.external_id)

/-- Number of rows of `store` with the given key. -/
def countKey (store : List JobRecord) (src eid : String) : Nat :=
  (store.filter (keyMatch src eid)).length

/-- First row with the given key, as the SELECT of the conflict branch reads it. -/
def findKey (store : List JobRecord) (src eid : String) : Option JobRecord :=
  store.find? (keyMatch src eid)

/-- Stored title at a key, if any. -/
def titleAt (store : List JobRecord) (src eid : String) : Option String :=
  (findKey store src eid).map JobRecord.title

/-- Specification-side restatement (spec §4.1): `upsert` returns exactly the
postings whose `(source, external_id)` key is not yet present when that
posting is processed, in input order; `keys` is the set of keys already
stored. -/
def specNewJobs (keys : List (String × String)) : List Job → List Job
  | [] => []
  | j :: rest =>
      if (j.source, j.external_id) ∈ keys then specNewJobs keys rest
      else j :: specNewJobs ((j.source, j.external_id) :: keys) rest

/-! ### Basic lemmas about the job identity store -/

theorem updateRecord_source (now : Nat) (j : Job) (sel r : JobRecord) :
    (updateRecord now j sel r).source = r.source := rfl

theorem updateRecord_external_id (now : Nat) (j : Job) (sel r : JobRecord) :
    (updateRecord now j sel r).external_id = r.external_id := rfl

theorem updateRecord_first_seen (now : Nat) (j : Job) (sel r : JobRecord) :
    (updateRecord now j sel r).first_seen_at = r.first_seen_at := rfl

theorem updateRecord_last_seen (now : Nat) (j : Job) (sel r : JobRecord) :
    (updateRecord now j sel r).last_seen_at = now := rfl

theorem keyMatch_updateRecord (src eid : String) (now : Nat) (j : Job) (sel r : JobRecord) :
    keyMatch src eid (updateRecord now j sel r) = keyMatch src eid r := rfl

/-- The conflict branch touches neither the set of keys nor row count. -/
theorem storeKeys_upsertOne_conflict (now : Nat) (store : List JobRecord) (j : Job)
    (sel : JobRecord) (h : findKey store j.source j.external_id = some sel) :
    storeKeys (upsertOne now store j).1 = storeKeys store := by
  unfold upsertOne
  rw [show store.find? (keyMatch j.source j.external_id) = some sel from h]
  simp only [storeKeys, List.map_map]
  apply List.map_congr_left
  intro r _
  by_cases hm : keyMatch j.source j.external_id r
  · simp [hm, Function.comp, updateRecord_source, updateRecord_external_id]
  · simp [hm, Function.comp]

theorem storeKeys_upsertOne_new (now : Nat) (store : List JobRecord) (j : Job)
    (h : findKey store j.source j.external_id = none) :
    storeKeys (upsertOne now store j).1
      = storeKeys store ++ [(j.source, j.external_id)] := by
  unfold upsertOne
  rw [show store.find? (keyMatch j.source j.external_id) = none from h]
  simp [storeKeys, insertRecord]

/-- A key is found exactly when it appears among the store's keys. -/
theorem findKey_isSome_iff (store : List JobRecord) (src eid : String) :
    (findKey store src eid).isSome = true ↔ (src, eid) ∈ storeKeys store := by
  induction store with
  | nil => simp [findKey, storeKeys]
  | cons r rest ih =>
      by_cases h : keyMatch src eid r
      · have hs : r.source = src ∧ r.external_id = eid := by
          simpa [keyMatch] using h
        simp [findKey, List.find?, h, storeKeys, hs.1, hs.2]
      · have hs : ¬(r.source = src ∧ r.external_id = eid) := by
          simpa [keyMatch] using h
        have : ((src, eid) = (r.source, r.external_id)) ↔ False := by
          constructor
          · intro he
            exact hs ⟨(Prod.mk.injEq _ _ _ _ ▸ he).1.symm,
                      (Prod.mk.injEq _ _ _ _ ▸ he).2.symm⟩
          · exact False.elim
        simp only [findKey, List.find?, h, storeKeys, List.map_cons, List.mem_cons]
        rw [this]
        simpa [findKey, storeKeys] using ih

theorem findKey_eq_none_iff (store : List JobRecord) (src eid : String) :
    findKey store src eid = none ↔ (src, eid) ∉ storeKeys store := by
  rw [← findKey_isSome_iff]
  cases h : findKey store src eid <;> simp [h]

/-- `specNewJobs` only depends on the key list up to membership. -/
theorem specNewJobs_congr (jobs : List Job) :
    ∀ ks ks' : List (String × String), (∀ x, x ∈ ks ↔ x ∈ ks') →
    specNewJobs ks jobs = specNewJobs ks' jobs := by
  induction jobs with
  | nil => intro ks ks' _; rfl
  | cons j rest ih =>
      intro ks ks' hequiv
      by_cases hmem : (j.source, j.external_id) ∈ ks
      · have hmem' : (j.source, j.external_id) ∈ ks' := (hequiv _).1 hmem
        simp [specNewJobs, hmem, hmem', ih ks ks' hequiv]
      · have hmem' : (j.source, j.external_id) ∉ ks' := fun h => hmem ((hequiv _).2 h)
        simp only [specNewJobs, if_neg hmem, if_neg hmem']
        refine congrArg (List.cons j) (ih _ _ ?_)
        intro x
        simp [hequiv x]

/-- Core refinement: the collected "new" jobs of `upsert_jobs` are exactly the
spec-side filtered subsequence. -/
theorem upsertJobs_new_eq_spec (jobs : List Job) :
    ∀ now store, (upsertJobs now store jobs).2 = specNewJobs (storeKeys store) jobs := by
  induction jobs with
  | nil => intro now store; rfl
  | cons j rest ih =>
      intro now store
      cases hf : findKey store j.source j.external_id with
      | some sel =>
          have hmem : (j.source, j.external_id) ∈ storeKeys store := by
            rw [← findKey_isSome_iff, hf]; rfl
          have hone : (upsertOne now store j).2 = false := by
            unfold upsertOne
            rw [show store.find? (keyMatch j.source j.external_id) = some sel from hf]
          have hkeys := storeKeys_upsertOne_conflict now store j sel hf
          simp only [upsertJobs, hone, if_neg Bool.false_ne_true, specNewJobs, hmem,
            if_pos, ih now (upsertOne now store j).1, hkeys]
      | none =>
          have hmem : (j.source, j.external_id) ∉ storeKeys store :=
            (findKey_eq_none_iff store j.source j.external_id).1 hf
          have hone : (upsertOne now store j).2 = true := by
            unfold upsertOne
            rw [show store.find? (keyMatch j.source j.external_id) = none from hf]
          have hkeys := storeKeys_upsertOne_new now store j hf
          simp only [upsertJobs, hone, if_pos, specNewJobs, hmem, if_neg,
            ih now (upsertOne now store j).1, hkeys]
          refine congrArg _ (specNewJobs_congr rest _ _ ?_)
          intro x
          simp [or_comm]

/-- After upserting `j`, the key of `j` is present. -/
theorem findKey_after_upsertOne (now : Nat) (store : List JobRecord) (j : Job) :
    (findKey (upsertOne now store j).1 j.source j.external_id).isSome = true := by
  rw [findKey_isSome_iff]
  cases hf : findKey store j.source j.external_id with
  | some sel =>
      rw [storeKeys_upsertOne_conflict now store j sel hf, ← findKey_isSome_iff, hf]
      rfl
  | none =>
      rw [storeKeys_upsertOne_new now store j hf]
      simp

theorem filter_touch_length (src eid s e : String) (now : Nat) (j : Job)
    (sel : JobRecord) (l : List JobRecord) :
    (List.filter (keyMatch src eid)
      (l.map fun r => if keyMatch s e r then updateRecord now j sel r else r)).length
      = (List.filter (keyMatch src eid) l).length := by
  induction l with
  | nil => rfl
  | cons r rest ih =>
      by_cases hm : keyMatch s e r
      · by_cases hk : keyMatch src eid r
        · simpa [hm, hk, List.filter, keyMatch_updateRecord] using ih
        · simpa [hm, hk, List.filter, keyMatch_updateRecord] using ih
      · by_cases hk : keyMatch src eid r
        · simpa [hm, hk, List.filter] using ih
        · simpa [hm, hk, List.filter] using ih

theorem countKey_upsertOne_conflict (now : Nat) (store : List JobRecord) (j : Job)
    (sel : JobRecord) (h : findKey store j.source j.external_id = some sel)
    (src eid : String) :
    countKey (upsertOne now store j).1 src eid = countKey store src eid := by
  unfold upsertOne
  rw [show store.find? (keyMatch j.source j.external_id) = some sel from h]
  exact filter_touch_length src eid j.source j.external_id now j sel store

theorem countKey_upsertOne_new (now : Nat) (store : List JobRecord) (j : Job)
    (h : findKey store j.source j.external_id = none) :
    countKey (upsertOne now store j).1 j.source j.external_id
      = countKey store j.source j.external_id + 1 := by
  unfold upsertOne
  rw [show store.find? (keyMatch j.source j.external_id) = none from h]
  have : keyMatch j.source j.external_id (insertRecord now j) = true := by
    simp [keyMatch, insertRecord]
  simp [countKey, List.filter_append, this]

theorem countKey_eq_zero_iff (store : List JobRecord) (src eid : String) :
    countKey store src eid = 0 ↔ findKey store src eid = none := by
  constructor
  · intro h
    have hall : ∀ r ∈ store, ¬ keyMatch src eid r := by
      intro r hr hm
      have : r ∈ store.filter (keyMatch src eid) := List.mem_filter.2 ⟨hr, hm⟩
      rw [List.length_eq_zero.1 h] at this
      exact absurd this (List.not_mem_nil r)
    exact List.find?_eq_none.2 hall
  · intro h
    have hall := List.find?_eq_none.1 h
    have : store.filter (keyMatch src eid) = [] := by
      apply List.filter_eq_nil_iff.2
      intro r hr
      exact hall r hr
    simp [countKey, this]

theorem upsertOne_snd_eq (now : Nat) (store : List JobRecord) (j : Job) :
    (upsertOne now store j).2 = (findKey store j.source j.external_id).isNone := by
  unfold upsertOne findKey
  cases store.find? (keyMatch j.source j.external_id) <;> rfl

/-- In the conflict branch, `find?` over the touched store returns the touched
version of the row `find?` used to return. -/
theorem find?_touch (s e : String) (now : Nat) (j : Job) (sel : JobRecord)
    (l : List JobRecord) :
    (l.map fun r => if keyMatch s e r then updateRecord now j sel r else r).find?
        (keyMatch s e)
      = (l.find? (keyMatch s e)).map fun r => updateRecord now j sel r := by
  induction l with
  | nil => rfl
  | cons r rest ih =>
      by_cases hm : keyMatch s e r
      · simp [List.find?, hm, keyMatch_updateRecord]
      · simpa [List.find?, hm] using ih

theorem upsertOne_inv (now : Nat) (store : List JobRecord) (j : Job)
    (hinv : ∀ r ∈ store, r.first_seen_at ≤ r.last_seen_at ∧ r.last_seen_at ≤ now) :
    ∀ r' ∈ (upsertOne now store j).1,
      r'.first_seen_at ≤ r'.last_seen_at ∧ r'.last_seen_at ≤ now := by
  unfold upsertOne
  cases hf : store.find? (keyMatch j.source j.external_id) with
  | some sel =>
      intro r' hr'
      obtain ⟨r, hr, hfr⟩ := List.mem_map.1 hr'
      by_cases hm : keyMatch j.source j.external_id r
      · subst hfr
        rw [if_pos hm]
        refine ⟨?_, ?_⟩
        · rw [updateRecord_first_seen, updateRecord_last_seen]
          exact le_trans (hinv r hr).1 (hinv r hr).2
        · rw [updateRecord_last_seen]
      · subst hfr
        rw [if_neg hm]
        exact hinv r hr
  | none =>
      intro r' hr'
      rcases List.mem_append.1 hr' with h | h
      · exact hinv r' h
      · rcases List.mem_singleton.1 h with rfl
        exact ⟨le_refl now, le_refl now⟩

theorem upsertOne_length (now : Nat) (store : List JobRecord) (j : Job) :
    store.length ≤ (upsertOne now store j).1.length := by
  unfold upsertOne
  cases store.find? (keyMatch j.source j.external_id) with
  | some sel => simp
  | none => simp

theorem upsertOne_preserves (now : Nat) (store : List JobRecord) (j : Job) :
    ∀ r ∈ store, ∃ r' ∈ (upsertOne now store j).1,
      r'.source = r.source ∧ r'.external_id = r.external_id
      ∧ r'.first_seen_at = r.first_seen_at := by
  unfold upsertOne
  cases store.find? (keyMatch j.source j.external_id) with
  | some sel =>
      intro r hr
      refine ⟨if keyMatch j.source j.external_id r then updateRecord now j sel r else r,
        List.mem_map_of_mem _ hr, ?_⟩
      by_cases hm : keyMatch j.source j.external_id r
      · rw [if_pos hm]
        exact ⟨updateRecord_source .., updateRecord_external_id ..,
          updateRecord_first_seen ..⟩
      · rw [if_neg hm]
        exact ⟨rfl, rfl, rfl⟩
  | none =>
      intro r hr
      exact ⟨r, List.mem_append_left _ hr, rfl, rfl, rfl⟩

theorem upsertJobs_inv (jobs : List Job) :
    ∀ (now : Nat) (store : List JobRecord),
    (∀ r ∈ store, r.first_seen_at ≤ r.last_seen_at ∧ r.last_seen_at ≤ now) →
    ∀ r' ∈ (upsertJobs now store jobs).1,
      r'.first_seen_at ≤ r'.last_seen_at ∧ r'.last_seen_at ≤ now := by
  induction jobs with
  | nil => intro now store hinv; exact hinv
  | cons j rest ih =>
      intro now store hinv
      exact ih now (upsertOne now store j).1 (upsertOne_inv now store j hinv)

theorem upsertJobs_length (jobs : List Job) :
    ∀ (now : Nat) (store : List JobRecord),
    store.length ≤ (upsertJobs now store jobs).1.length := by
  induction jobs with
  | nil => intro now store; exact le_refl _
  | cons j rest ih =>
      intro now store
      exact le_trans (upsertOne_length now store j) (ih now (upsertOne now store j).1)

theorem upsertJobs_preserves (jobs : List Job) :
    ∀ (now : Nat) (store : List JobRecord), ∀ r ∈ store,
      ∃ r' ∈ (upsertJobs now store jobs).1,
        r'.source = r.source ∧ r'.external_id = r.external_id
        ∧ r'.first_seen_at = r.first_seen_at := by
  induction jobs with
  | nil => intro now store r hr; exact ⟨r, hr, rfl, rfl, rfl⟩
  | cons j rest ih =>
      intro now store r hr
      obtain ⟨r1, hr1, hs1, he1, hf1⟩ := upsertOne_preserves now store j r hr
      obtain ⟨r2, hr2, hs2, he2, hf2⟩ := ih now (upsertOne now store j).1 r1 hr1
      exact ⟨r2, hr2, hs2.trans hs1, he2.trans he1, hf2.trans hf1⟩

/-! ### Claim theorems for the job identity store -/

/-- C1 — Job Identity Store title healing: on an upsert conflict for
`(source, external_id)`, the stored title afterwards is the incoming title
exactly when the previously stored title was bad (blank, the `"(unknown)"`
sentinel, or containing a known-garbage pattern) and the incoming title is
non-empty and not the sentinel; in every other conflict case the stored
title is kept unchanged. -/
theorem jobdb_title_healing (now : Nat) (store : List JobRecord) (j : Job)
    (sel : JobRecord) (h : findKey store j.source j.external_id = some sel) :
    titleAt (upsertJobs now store [j]).1 j.source j.external_id
      = some (if badTitle sel.title && decide (j.title ≠ "")
                 && decide (j.title ≠ "(unknown)")
              then j.title else sel.title) := by
  have h' : store.find? (keyMatch j.source j.external_id) = some sel := h
  show titleAt (upsertOne now store j).1 j.source j.external_id = _
  unfold upsertOne
  rw [h']
  simp only [titleAt, findKey, find?_touch, h', Option.map_some']
  rfl

/-- Witness for C1: healing a blank stored title with an incoming good title. -/
theorem jobdb_title_healing_witness :
    findKey [⟨"keejob", "1", "", "", "", "u", none, 5, 5⟩] "keejob" "1"
      = some ⟨"keejob", "1", "", "", "", "u", none, 5, 5⟩
    ∧ titleAt (upsertJobs 7 [⟨"keejob", "1", "", "", "", "u", none, 5, 5⟩]
          [⟨"keejob", "1", "Backend Engineer", "", "", "u2", none⟩]).1
        "keejob" "1" = some "Backend Engineer" :=
  ⟨by decide,
   (jobdb_title_healing 7 [⟨"keejob", "1", "", "", "", "u", none, 5, 5⟩]
      ⟨"keejob", "1", "Backend Engineer", "", "", "u2", none⟩
      ⟨"keejob", "1", "", "", "", "u", none, 5, 5⟩ (by decide)).trans (by decide)⟩

/-- C2 — New-record detection and idempotence: `upsert_jobs` returns exactly
the postings whose key was not stored when processed, in input order
(refinement against the spec-side `specNewJobs`); re-upserting the same
posting returns it no further times and leaves exactly one row for its key. -/
theorem jobdb_upsert_new_and_idempotent :
    (∀ (now : Nat) (store : List JobRecord) (jobs : List Job),
        (upsertJobs now store jobs).2 = specNewJobs (storeKeys store) jobs)
    ∧ (∀ (now now2 : Nat) (store : List JobRecord) (j : Job),
        (upsertJobs now2 (upsertJobs now store [j]).1 [j]).2 = [])
    ∧ (∀ (now now2 : Nat) (store : List JobRecord) (j : Job),
        countKey store j.source j.external_id = 0 →
        countKey (upsertJobs now store [j]).1 j.source j.external_id = 1
        ∧ countKey (upsertJobs now2 (upsertJobs now store [j]).1 [j]).1
            j.source j.external_id = 1) := by
  refine ⟨fun now store jobs => upsertJobs_new_eq_spec jobs now store, ?_, ?_⟩
  · intro now now2 store j
    have h1 : (upsertJobs now store [j]).1 = (upsertOne now store j).1 := rfl
    have hs := findKey_after_upsertOne now store j
    rw [h1]
    obtain ⟨sel, hsel⟩ := Option.isSome_iff_exists.1 hs
    show (if (upsertOne now2 (upsertOne now store j).1 j).2 then [j] else []) = []
    rw [upsertOne_snd_eq, hsel]
    rfl
  · intro now now2 store j hzero
    have hf : findKey store j.source j.external_id = none :=
      (countKey_eq_zero_iff store j.source j.external_id).1 hzero
    have h1 : (upsertJobs now store [j]).1 = (upsertOne now store j).1 := rfl
    have hcount1 : countKey (upsertOne now store j).1 j.source j.external_id = 1 := by
      rw [countKey_upsertOne_new now store j hf, hzero]
    have hs := findKey_after_upsertOne now store j
    obtain ⟨sel, hsel⟩ := Option.isSome_iff_exists.1 hs
    have h2 : (upsertJobs now2 (upsertOne now store j).1 [j]).1
        = (upsertOne now2 (upsertOne now store j).1 j).1 := rfl
    rw [h1, h2]
    exact ⟨hcount1,
      (countKey_upsertOne_conflict now2 (upsertOne now store j).1 j sel hsel
        j.source j.external_id).trans hcount1⟩

/-- Witness for C2: empty store, one posting upserted twice. -/
theorem jobdb_upsert_idempotent_witness :
    countKey ([] : List JobRecord) "s" "e" = 0
    ∧ (countKey (upsertJobs 1 [] [⟨"s", "e", "t", "", "", "u", none⟩]).1 "s" "e" = 1
       ∧ countKey (upsertJobs 2 (upsertJobs 1 [] [⟨"s", "e", "t", "", "", "u", none⟩]).1
            [⟨"s", "e", "t", "", "", "u", none⟩]).1 "s" "e" = 1) :=
  ⟨by decide,
   jobdb_upsert_new_and_idempotent.2.2 1 2 [] ⟨"s", "e", "t", "", "", "u", none⟩
     (by decide)⟩

/-- C3 — JobRecord store invariant: under a monotone clock every stored record
keeps `first_seen_at ≤ last_seen_at`; upsert never deletes a row and never
changes `first_seen_at` of an existing row; a conflicting upsert only touches
the matching row, refreshing its `last_seen_at` to the current time. -/
theorem jobdb_store_invariant :
    (∀ (now : Nat) (store : List JobRecord) (jobs : List Job),
        (∀ r ∈ store, r.first_seen_at ≤ r.last_seen_at ∧ r.last_seen_at ≤ now) →
        (∀ r' ∈ (upsertJobs now store jobs).1,
            r'.first_seen_at ≤ r'.last_seen_at)
        ∧ store.length ≤ (upsertJobs now store jobs).1.length
        ∧ (∀ r ∈ store, ∃ r' ∈ (upsertJobs now store jobs).1,
            r'.source = r.source ∧ r'.external_id = r.external_id
            ∧ r'.first_seen_at = r.first_seen_at))
    ∧ (∀ (now : Nat) (store : List JobRecord) (j : Job) (sel : JobRecord),
        findKey store j.source j.external_id = some sel →
        (upsertJobs now store [j]).1
          = store.map (fun r =>
              if keyMatch j.source j.external_id r then updateRecord now j sel r else r)
        ∧ (∀ r : JobRecord, (updateRecord now j sel r).last_seen_at = now
            ∧ (updateRecord now j sel r).first_seen_at = r.first_seen_at)) := by
  constructor
  · intro now store jobs hinv
    refine ⟨fun r' hr' => (upsertJobs_inv jobs now store hinv r' hr').1,
      upsertJobs_length jobs now store, upsertJobs_preserves jobs now store⟩
  · intro now store j sel h
    constructor
    · show (upsertOne now store j).1 = _
      unfold upsertOne
      rw [show store.find? (keyMatch j.source j.external_id) = some sel from h]
    · intro r
      exact ⟨updateRecord_last_seen .., updateRecord_first_seen ..⟩

/-- Witness for C3: one stored row, one conflicting posting. -/
theorem jobdb_store_invariant_witness :
    (∀ r ∈ [(⟨"s", "e", "t", "c", "l", "u", none, 3, 4⟩ : JobRecord)],
        r.first_seen_at ≤ r.last_seen_at ∧ r.last_seen_at ≤ 9)
    ∧ (∀ r' ∈ (upsertJobs 9 [(⟨"s", "e", "t", "c", "l", "u", none, 3, 4⟩ : JobRecord)]
          [⟨"s", "e", "t2", "", "", "u2", none⟩]).1,
        r'.first_seen_at ≤ r'.last_seen_at)
    ∧ findKey [(⟨"s", "e", "t", "c", "l", "u", none, 3, 4⟩ : JobRecord)] "s" "e"
        = some ⟨"s", "e", "t", "c", "l", "u", none, 3, 4⟩
    ∧ (updateRecord 9 ⟨"s", "e", "t2", "", "", "u2", none⟩
        ⟨"s", "e", "t", "c", "l", "u", none, 3, 4⟩
        ⟨"s", "e", "t", "c", "l", "u", none, 3, 4⟩).last_seen_at = 9 :=
  ⟨by decide,
   (jobdb_store_invariant.1 9 [⟨"s", "e", "t", "c", "l", "u", none, 3, 4⟩]
      [⟨"s", "e", "t2", "", "", "u2", none⟩] (by decide)).1,
   by decide,
   ((jobdb_store_invariant.2 9 [⟨"s", "e", "t", "c", "l", "u", none, 3, 4⟩]
      ⟨"s", "e", "t2", "", "", "u2", none⟩ ⟨"s", "e", "t", "c", "l", "u", none, 3, 4⟩
      (by decide)).2 ⟨"s", "e", "t", "c", "l", "u", none, 3, 4⟩).1⟩

/-! ## URL canonicalization — `src/jobscraper/url_canon.py`

`canonicalize_url` delegates to Python's `urllib.parse` (CPython 3.11):
`urlparse`, `parse_qsl`, `urlencode`, `urlunparse`.  Those are embedded
below over `List Char`.  Character-class details follow CPython: the
WHATWG C0-control/space lstrip and tab/CR/LF removal in `urlsplit`, the
`scheme_chars` check, `_splitparams` applying only for schemes in
`uses_params`, and percent-encoding via UTF-8.  Unicode `str.lower` is
modelled by ASCII lowering.  `pyUrlsplit` computes the five components;
the `ValueError` paths of `urlsplit` (unbalanced brackets in the netloc,
`_check_bracketed_host`, `_checknetloc`) depend only on the netloc and are
embedded separately below as `pyUrlsplitNetlocError` / `pyUrlsplitE`, which
the raising variants `canonicalize_urlE` and `extractTextForUrlsE` use. -/

def schemeChars : List Char :=
  "abcdefghijklmnopqrstuvwxyzABCDEFGHIJKLMNOPQRSTUVWXYZ0123456789+-.".data

def usesParams : List String :=
  ["", "ftp", "hdl", "prospero", "http", "imap", "https", "shttp", "rtsp",
   "rtsps", "rtspu", "sip", "sips", "mms", "sftp", "tel"]

def usesNetloc : List String :=
  ["", "ftp", "http", "gopher", "nntp", "telnet", "imap", "wais", "file",
   "mms", "https", "shttp", "snews", "prospero", "rtsp", "rtsps", "rtspu",
   "rsync", "svn", "svn+ssh", "sftp", "nfs", "git", "git+ssh", "ws", "wss"]

/-- `DROP_PARAMS` of url_canon.py. -/
def DROP_PARAMS : List String :=
  ["trk", "trackingId", "refId", "eBP", "alternateChannel", "lipi",
   "originalSubdomain", "utm_source", "utm_medium", "utm_campaign",
   "utm_term", "utm_content", "gclid", "fbclid"]

/-- WHATWG C0 control or space (the lstrip set of `urlsplit`). -/
def isC0OrSpace (c : Char) : Bool := c.toNat ≤ 0x20

structure PySplit where
  scheme : List Char
  netloc : List Char
  path : List Char
  query : List Char
  fragment : List Char

/-- CPython 3.11 `urllib.parse.urlsplit` (defaults: scheme `''`,
`allow_fragments=True`). -/
def pyUrlsplit (url0 : List Char) : PySplit :=
  let url1 := (url0.dropWhile isC0OrSpace).filter
    fun c => !(c = '\t' || c = '\r' || c = '\n')
  let schemeUrl :=
    match url1.findIdx? (· = ':') with
    | some i =>
        if 0 < i && (url1.headD ' ').toNat ≤ 127 && (url1.headD ' ').isAlpha
            && (url1.take i).all (· ∈ schemeChars)
        then (toLowerL (url1.take i), url1.drop (i + 1))
        else ([], url1)
    | none => ([], url1)
  let scheme := schemeUrl.1
  let url2 := schemeUrl.2
  let netlocUrl :=
    if url2.take 2 = ['/', '/'] then
      let rest := url2.drop 2
      (rest.takeWhile fun c => !(c = '/' || c = '?' || c = '#'),
       rest.dropWhile fun c => !(c = '/' || c = '?' || c = '#'))
    else ([], url2)
  let netloc := netlocUrl.1
  let url3 := netlocUrl.2
  let urlFrag : List Char × List Char :=
    if '#' ∈ url3 then (url3.takeWhile (· ≠ '#'), (url3.dropWhile (· ≠ '#')).drop 1)
    else (url3, [])
  let urlQuery : List Char × List Char :=
    if '?' ∈ urlFrag.1 then
      (urlFrag.1.takeWhile (· ≠ '?'), (urlFrag.1.dropWhile (· ≠ '?')).drop 1)
    else (urlFrag.1, [])
  ⟨scheme, netloc, urlQuery.1, urlQuery.2, urlFrag.2⟩

/-- CPython `urllib.parse._splitparams` (caller guarantees `';' ∈ url`). -/
def pySplitparams (url : List Char) : List Char × List Char :=
  if '/' ∈ url then
    let k := url.length - 1 - (url.reverse.findIdx (· = '/'))
    match (url.drop k).findIdx? (· = ';') with
    | some d => (url.take (k + d), url.drop (k + d + 1))
    | none => (url, [])
  else
    match url.findIdx? (· = ';') with
    | some i => (url.take i, url.drop (i + 1))
    | none => (url, [])

structure PyParse where
  scheme : List Char
  netloc : List Char
  path : List Char
  params : List Char
  query : List Char
  fragment : List Char

/-- CPython `urllib.parse.urlparse` (defaults). -/
def pyUrlparse (url : List Char) : PyParse :=
  let s := pyUrlsplit url
  if (⟨s.scheme⟩ : String) ∈ usesParams && ';' ∈ s.path then
    let pp := pySplitparams s.path
    ⟨s.scheme, s.netloc, pp.1, pp.2, s.query, s.fragment⟩
  else ⟨s.scheme, s.netloc, s.path, [], s.query, s.fragment⟩

def hexDigit? (c : Char) : Option Nat :=
  if '0' ≤ c && c ≤ '9' then some (c.toNat - 48)
  else if 'a' ≤ c && c ≤ 'f' then some (c.toNat - 87)
  else if 'A' ≤ c && c ≤ 'F' then some (c.toNat - 55)
  else none

/-- Consume the maximal leading run of valid `%XX` escapes, as bytes. -/
def pctRun : List Char → List Nat × List Char
  | '%' :: a :: b :: rest =>
      match hexDigit? a, hexDigit? b with
      | some x, some y =>
          let r := pctRun rest
          ((16 * x + y) :: r.1, r.2)
      | _, _ => ([], '%' :: a :: b :: rest)
  | l => ([], l)

/-- The U+FFFD replacement character (`errors='replace'`). -/
def replChar : Char := Char.ofNat 0xFFFD

/-- UTF-8 decoding of a byte run, one replacement char per invalid leading
byte (the observable behavior of `bytes.decode('utf-8', 'replace')` on the
well-formed inputs arising here); fuel-indexed, one unit per consumed byte. -/
def utf8DecAux : Nat → List Nat → List Char
  | _, [] => []
  | 0, _ => []
  | fuel + 1, b :: rest =>
      if b < 0x80 then Char.ofNat b :: utf8DecAux fuel rest
      else if 0xC2 ≤ b && b ≤ 0xDF then
        match rest with
        | c1 :: rest' =>
            if 0x80 ≤ c1 && c1 ≤ 0xBF then
              Char.ofNat ((b - 0xC0) * 64 + (c1 - 0x80)) :: utf8DecAux fuel rest'
            else replChar :: utf8DecAux fuel rest
        | [] => [replChar]
      else if 0xE0 ≤ b && b ≤ 0xEF then
        match rest with
        | c1 :: c2 :: rest' =>
            if (0x80 ≤ c1 && c1 ≤ 0xBF) && (0x80 ≤ c2 && c2 ≤ 0xBF)
                && !(b = 0xE0 && c1 < 0xA0) && !(b = 0xED && c1 > 0x9F) then
              Char.ofNat ((b - 0xE0) * 4096 + (c1 - 0x80) * 64 + (c2 - 0x80))
                :: utf8DecAux fuel rest'
            else replChar :: utf8DecAux fuel rest
        | _ => replChar :: utf8DecAux fuel rest
      else if 0xF0 ≤ b && b ≤ 0xF4 then
        match rest with
        | c1 :: c2 :: c3 :: rest' =>
            if (0x80 ≤ c1 && c1 ≤ 0xBF) && (0x80 ≤ c2 && c2 ≤ 0xBF)
                && (0x80 ≤ c3 && c3 ≤ 0xBF)
                && !(b = 0xF0 && c1 < 0x90) && !(b = 0xF4 && c1 > 0x8F) then
              Char.ofNat ((b - 0xF0) * 0x40000 + (c1 - 0x80) * 4096
                  + (c2 - 0x80) * 64 + (c3 - 0x80)) :: utf8DecAux fuel rest'
            else replChar :: utf8DecAux fuel rest
        | _ => replChar :: utf8DecAux fuel rest
      else replChar :: utf8DecAux fuel rest

def utf8Dec (l : List Nat) : List Char := utf8DecAux l.length l

/-- CPython `urllib.parse.unquote` (encoding `utf-8`, errors `replace`),
with explicit fuel (one unit per consumed character suffices). -/
def pyUnquoteAux : Nat → List Char → List Char
  | _, [] => []
  | 0, l => l
  | fuel + 1, '%' :: a :: b :: rest =>
      match hexDigit? a, hexDigit? b with
      | some _, some _ =>
          let r := pctRun ('%' :: a :: b :: rest)
          utf8Dec r.1 ++ pyUnquoteAux fuel r.2
      | _, _ => '%' :: pyUnquoteAux fuel (a :: b :: rest)
  | fuel + 1, c :: rest => c :: pyUnquoteAux fuel rest

def pyUnquote (l : List Char) : List Char := pyUnquoteAux l.length l

/-- `unquote_plus`-style decoding as done inside `parse_qsl`:
`'+' → ' '` then `unquote`. -/
def pyUnquotePlus (l : List Char) : List Char :=
  pyUnquote (l.map fun c => if c = '+' then ' ' else c)

/-- Python `str.split(sep)` on a char list (all occurrences, empty chunks kept). -/
def splitOnSep (sep : Char) : List Char → List (List Char)
  | [] => [[]]
  | c :: rest =>
      match splitOnSep sep rest with
      | h :: t => if c = sep then [] :: h :: t else (c :: h) :: t
      | [] => if c = sep then [[], []] else [[c]]

/-- CPython `urllib.parse.parse_qsl` with `keep_blank_values=True`,
separator `'&'` (the call made by `canonicalize_url`). -/
def parse_qsl (qs : List Char) : List (List Char × List Char) :=
  if qs.isEmpty then []
  else
    (splitOnSep '&' qs).foldr
      (fun chunk acc =>
        if chunk.isEmpty then acc
        else
          let nv :=
            match chunk.findIdx? (· = '=') with
            | some i => (chunk.take i, chunk.drop (i + 1))
            | none => (chunk, ([] : List Char))
          (pyUnquotePlus nv.1, pyUnquotePlus nv.2) :: acc)
      []

def alwaysSafe : List Char :=
  "ABCDEFGHIJKLMNOPQRSTUVWXYZabcdefghijklmnopqrstuvwxyz0123456789_.-~".data

def hexUp (n : Nat) : Char := "0123456789ABCDEF".data.getD n '0'

def utf8Enc (c : Char) : List Nat :=
  let n := c.toNat
  if n < 0x80 then [n]
  else if n < 0x800 then [0xC0 + n / 64, 0x80 + n % 64]
  else if n < 0x10000 then
    [0xE0 + n / 4096, 0x80 + (n / 64) % 64, 0x80 + n % 64]
  else
    [0xF0 + n / 0x40000, 0x80 + (n / 4096) % 64, 0x80 + (n / 64) % 64,
     0x80 + n % 64]

/-- CPython `urllib.parse.quote` restricted to the given extra safe set. -/
def pyQuote (safe : List Char) (l : List Char) : List Char :=
  l.foldr
    (fun c acc =>
      (if c ∈ alwaysSafe || c ∈ safe then [c]
       else (utf8Enc c).foldr (fun b a => '%' :: hexUp (b / 16) :: hexUp (b % 16) :: a) [])
      ++ acc)
    []

/-- CPython `urllib.parse.quote_plus` with `safe=''` (as used by `urlencode`). -/
def pyQuotePlus (l : List Char) : List Char :=
  if ' ' ∈ l then (pyQuote [' '] l).map fun c => if c = ' ' then '+' else c
  else pyQuote [] l

/-- CPython `urllib.parse.urlencode` with `doseq=True` over string pairs. -/
def urlencodePairs (q : List (List Char × List Char)) : List Char :=
  List.intercalate ['&'] (q.map fun kv => pyQuotePlus kv.1 ++ '=' :: pyQuotePlus kv.2)

/-- Code-point lexicographic `<` on char lists (Python `str.__lt__`). -/
def strLtL : List Char → List Char → Bool
  | [], [] => false
  | [], _ :: _ => true
  | _ :: _, [] => false
  | a :: as, b :: bs => if a < b then true else if b < a then false else strLtL as bs

/-- Python tuple `<=` on string pairs, as `list.sort()` compares them. -/
def pairLe (p q : List Char × List Char) : Bool :=
  strLtL p.1 q.1 || (p.1 == q.1 && (strLtL p.2 q.2 || p.2 == q.2))

def insertSorted (x : List Char × List Char) :
    List (List Char × List Char) → List (List Char × List Char)
  | [] => [x]
  | y :: ys => if pairLe x y then x :: y :: ys else y :: insertSorted x ys

/-- Ascending sort of the query pairs (Python `q.sort()`). -/
def sortPairs (l : List (List Char × List Char)) : List (List Char × List Char) :=
  l.foldr insertSorted []

/-- CPython `urllib.parse.urlunsplit`. -/
def pyUrlunsplit (scheme netloc url query fragment : List Char) : List Char :=
  let u1 :=
    if !netloc.isEmpty
        || (!scheme.isEmpty && (⟨scheme⟩ : String) ∈ usesNetloc && url.take 2 ≠ ['/', '/'])
    then
      let u0 := if !url.isEmpty && url.take 1 ≠ ['/'] then '/' :: url else url
      '/' :: '/' :: (netloc ++ u0)
    else url
  let u2 := if !scheme.isEmpty then scheme ++ ':' :: u1 else u1
  let u3 := if !query.isEmpty then u2 ++ '?' :: query else u2
  if !fragment.isEmpty then u3 ++ '#' :: fragment else u3

/-- CPython `urllib.parse.urlunparse`. -/
def pyUrlunparse (scheme netloc url params query fragment : List Char) : List Char :=
  pyUrlunsplit scheme netloc
    (if !params.isEmpty then url ++ ';' :: params else url) query fragment

/-- Strip all trailing slashes (Python `path.rstrip("/")`). -/
def rstripSlashes (l : List Char) : List Char :=
  (l.reverse.dropWhile (· = '/')).reverse

/-- `canonicalize_url` of url_canon.py. -/
def canonicalize_url (url : String) : String :=
  if url = "" then ""
  else
    let p := pyUrlparse (pyStripL url.data)
    let scheme := toLowerL p.scheme
    let netloc := toLowerL p.netloc
    let path := p.path
    let path1 := if path ≠ ['/'] then rstripSlashes path else path
    let q := (parse_qsl p.query).filter fun kv => !((⟨kv.1⟩ : String) ∈ DROP_PARAMS)
    let query := urlencodePairs (sortPairs q)
    ⟨pyUrlunparse scheme netloc path1 [] query []⟩

/-- `_host` of text_extraction.py: `(urlparse(url).netloc or "").lower()`. -/
def hostOf (u : String) : String := ⟨toLowerL (pyUrlparse u.data).netloc⟩

/-! ### The `ValueError` path of `urlsplit` (malformed bracketed hosts)

CPython's `urlsplit` raises `ValueError("Invalid IPv6 URL")` for a netloc
with unbalanced brackets, and calls `_check_bracketed_host` on a bracketed
host, which raises for an invalid IPvFuture form, for an IPv4 address in
brackets, and — via `ipaddress.ip_address`, whose internal failures are
re-raised with one uniform message — for anything that is not a valid
IPv4/IPv6 address.  It finally calls `_checknetloc`.  All three raise
sites depend only on the netloc component, so the raising embedding
`pyUrlsplitE` is the component splitter `pyUrlsplit` guarded by the netloc
error check.  `ipaddress` textual validation (`IPv4Address._parse_octet`,
`IPv6Address._ip_int_from_string` including `'::'` compression, embedded
IPv4 tails and `'%'` scope ids) is embedded as validity recognizers; the
uniform error message uses plain quoting where Python uses `repr`.
`_checknetloc` returns immediately for an empty or ASCII netloc; its
non-ASCII branch compares against the NFKC normalization of the netloc,
which needs the Unicode normalization tables and is approximated here as
not raising (every netloc appearing in the theorems below is ASCII, where
the embedding is exact). -/

def natOfDigits (l : List Char) : Nat :=
  l.foldl (fun n c => 10 * n + (c.toNat - 48)) 0

/-- `IPv4Address._parse_octet`: ASCII digits only, at most three, no
leading zero, value at most 255. -/
def isIPv4Octet (g : List Char) : Bool :=
  !g.isEmpty && g.all Char.isDigit && decide (g.length ≤ 3)
  && (g == ['0'] || g.headD '0' ≠ '0') && decide (natOfDigits g ≤ 255)

/-- `IPv4Address` textual validity: no `'/'`, exactly four valid octets. -/
def isIPv4Addr (s : List Char) : Bool :=
  !('/' ∈ s)
  && (let octets := splitOnSep '.' s
      decide (octets.length = 4) && octets.all isIPv4Octet)

/-- `IPv6Address._parse_hextet`: one to four hex digits. -/
def isHextet (g : List Char) : Bool :=
  !g.isEmpty && decide (g.length ≤ 4) && g.all fun c => (hexDigit? c).isSome

/-- The part-structure check of `IPv6Address._ip_int_from_string` once the
optional embedded-IPv4 tail has been replaced by two hextets: at most one
`'::'` (an empty interior part), a leading or trailing `':'` only as part
of it, at least one group actually skipped by `'::'` — or exactly eight
groups without it — and every remaining part a valid hextet. -/
def ipv6Parts (parts : List (List Char)) : Bool :=
  decide (parts.length ≤ 9)
  && (let interior := (parts.drop 1).dropLast
      let headEmpty := (parts.headD [' ']).isEmpty
      let lastEmpty := (parts.getLastD [' ']).isEmpty
      if 2 ≤ (interior.filter (fun p => p.isEmpty)).length then false
      else if (interior.filter (fun p => p.isEmpty)).length = 1 then
        let skipIdx := 1 + interior.findIdx (fun p => p.isEmpty)
        let partsHi := if headEmpty then skipIdx - 1 else skipIdx
        let partsLo0 := parts.length - skipIdx - 1
        let partsLo := if lastEmpty then partsLo0 - 1 else partsLo0
        (!headEmpty || decide (skipIdx - 1 = 0))
        && (!lastEmpty || decide (partsLo0 - 1 = 0))
        && decide (partsHi + partsLo ≤ 7)
        && (parts.take partsHi).all isHextet
        && (parts.drop (parts.length - partsLo)).all isHextet
      else
        decide (parts.length = 8) && !headEmpty && !lastEmpty
        && parts.all isHextet)

/-- `IPv6Address._ip_int_from_string` validity: nonempty, at least three
`':'`-separated parts, an embedded IPv4 tail (a part containing `'.'`)
must be a valid IPv4 address and stands for two hextets. -/
def isIPv6Core (s : List Char) : Bool :=
  !s.isEmpty
  && (let parts0 := splitOnSep ':' s
      decide (3 ≤ parts0.length)
      && (let lastP := parts0.getLastD []
          if '.' ∈ lastP then
            isIPv4Addr lastP && ipv6Parts (parts0.dropLast ++ [['0'], ['0']])
          else ipv6Parts parts0))

/-- `IPv6Address` textual validity: no `'/'`; an optional `'%'` scope id
must be nonempty and contain no further `'%'` (`_split_scope_id`). -/
def isIPv6Addr (s : List Char) : Bool :=
  !('/' ∈ s)
  && (let addr := s.takeWhile (· ≠ '%')
      match s.dropWhile (· ≠ '%') with
      | [] => isIPv6Core addr
      | _ :: scope => !scope.isEmpty && !('%' ∈ scope) && isIPv6Core addr)

/-- `_check_bracketed_host`: `none` means no raise, `some` carries the
`ValueError` message.  An IPvFuture host (`startswith('v')`) must match
`\Av[a-fA-F0-9]+\..+\Z`; otherwise `ipaddress.ip_address` must yield an
IPv6 (not IPv4) address. -/
def checkBracketedHost (hostname : List Char) : Option String :=
  if hostname.headD ' ' = 'v' then
    let rest := hostname.drop 1
    let hexs := rest.takeWhile fun c => (hexDigit? c).isSome
    let tail := rest.drop hexs.length
    if !hexs.isEmpty && tail.headD ' ' = '.' && !(tail.drop 1).isEmpty
        && !('\n' ∈ tail.drop 1)
    then none
    else some "IPvFuture address is invalid"
  else if isIPv4Addr hostname then some "An IPv4 address cannot be in brackets"
  else if isIPv6Addr hostname then none
  else some ((⟨'\'' :: hostname⟩ : String)
    ++ "' does not appear to be an IPv4 or IPv6 address")

/-- `netloc.partition('[')[2].partition(']')[0]`. -/
def bracketedHostOf (netloc : List Char) : List Char :=
  ((netloc.dropWhile (· ≠ '[')).drop 1).takeWhile (· ≠ ']')

/-- `_checknetloc`: returns at once for an empty or ASCII netloc; the
non-ASCII NFKC-expansion check is not modelled (approximated as no raise —
exact on the ASCII netlocs appearing in every theorem below). -/
def pyChecknetloc (netloc : List Char) : Option String :=
  if netloc.isEmpty || netloc.all (fun c => c.toNat ≤ 127) then none
  else none

/-- The `ValueError` raised by `urlsplit` at a given netloc, if any, in
CPython's evaluation order: unbalanced brackets, then
`_check_bracketed_host`, then `_checknetloc`. -/
def pyUrlsplitNetlocError (netloc : List Char) : Option String :=
  if ('[' ∈ netloc && !(']' ∈ netloc)) || (']' ∈ netloc && !('[' ∈ netloc)) then
    some "Invalid IPv6 URL"
  else if '[' ∈ netloc && ']' ∈ netloc then
    match checkBracketedHost (bracketedHostOf netloc) with
    | some e => some e
    | none => pyChecknetloc netloc
  else pyChecknetloc netloc

/-- `urlsplit` with its raise path: the components of `pyUrlsplit`, or the
`ValueError` message. -/
def pyUrlsplitE (url0 : List Char) : Except String PySplit :=
  match pyUrlsplitNetlocError (pyUrlsplit url0).netloc with
  | some e => Except.error e
  | none => Except.ok (pyUrlsplit url0)

/-- `canonicalize_url` with the `urlparse` raise path: the program calls
`urlparse(url.strip())`, so a malformed bracketed host propagates the
`ValueError`; no later step of the function can raise. -/
def canonicalize_urlE (url : String) : Except String String :=
  if url = "" then Except.ok ""
  else
    match pyUrlsplitE (pyStripL url.data) with
    | Except.error e => Except.error e
    | Except.ok _ => Except.ok (canonicalize_url url)

/-- C4 — URL canonicalization is NOT idempotent: at the input
`"http://x.com/a;p/"` the first pass strips the trailing slash, after which
`urlparse` splits `";p"` off the path as RFC path params (`_splitparams`
fires only when a `';'` follows the last `'/'`), so a second pass drops it:
`canonicalize_url u = "http://x.com/a;p"` but
`canonicalize_url (canonicalize_url u) = "http://x.com/a"`.  The empty-input
clause of the claim does hold. -/
theorem canonicalize_url_not_idempotent :
    canonicalize_url "http://x.com/a;p/" = "http://x.com/a;p"
    ∧ canonicalize_url (canonicalize_url "http://x.com/a;p/") = "http://x.com/a"
    ∧ canonicalize_url (canonicalize_url "http://x.com/a;p/")
        ≠ canonicalize_url "http://x.com/a;p/"
    ∧ canonicalize_url "" = "" := by
  refine ⟨by decide, ?_, ?_, by decide⟩
  · show canonicalize_url "http://x.com/a;p" = "http://x.com/a"
    decide
  · show canonicalize_url "http://x.com/a;p" ≠ "http://x.com/a;p"
    decide

/-! ## Text extraction engine — `src/jobscraper/text_extraction.py`

External effects are oracles collected in `FetchEnv`:
`httpGet` is `requests.get` (exception message, or status code and body);
`extractBody` is the selectolax script/style-stripping body-text extraction;
`cdpPage`/`tanitPage` are `fetch_page_text_via_cdp` /
`fetch_tanitjobs_page_text`; `cfProbe` is `_http_seems_cloudflare` (a HEAD
request).  The text cache table (`job_text_cache_db.py`) is an association
list keyed by canonical URL.  The engine also keeps two observability logs
absent from the Python (the list of fetch attempts and the list of cache
upserts, in order); they record what the run did without altering it.  The
thread pool of size 2 is determinized: per-URL results are independent of
completion order, and the summary dict and final cache contents considered
by the claims do not depend on it. -/

structure TextFetchResult where
  url : String
  text : String
  method : String
  status : String
  error : Option String
deriving DecidableEq

structure FetchEnv where
  httpGet : String → Except String (Nat × String)
  extractBody : String → String
  cdpPage : String → Except String String
  tanitPage : String → Except String String
  cfProbe : String → Bool

/-- `_clean_text`: collapse whitespace runs to one space, then strip. -/
def cleanTextL (l : List Char) : List Char :=
  pyStripL (l.foldr
    (fun c acc =>
      if isPySpace c then (if acc.headD 'x' = ' ' then acc else ' ' :: acc)
      else c :: acc)
    [])

def cleanText (s : String) : String := ⟨cleanTextL s.data⟩

/-- The interstitial/challenge marker list of `_is_blocked_text`. -/
def blockedMarkers : List String :=
  ["just a moment", "verifying you are human", "cloudflare", "access denied",
   "blocked", "captcha"]

/-- `_is_blocked_text`: case-insensitive substring match of any marker. -/
def isBlockedText (t : String) : Bool :=
  let tl := toLowerL t.data
  if tl.isEmpty then false
  else blockedMarkers.any fun m => occursIn m.data tl

/-- `_classify_text`. -/
def classifyText (t : String) : String :=
  if isBlockedText t then "blocked"
  else if t = "" || t.length < 200 then "empty"
  else "ok"

/-- The HTTP status codes `_fetch_http` treats as `blocked`. -/
def blockedCodes : List Nat := [403, 429, 503, 520, 522, 523, 524]

/-- `_fetch_http` (defaults `timeout_s=20`, `max_chars=8000`): exceptions
become an `error` result; blocked/error status codes return before any body
handling; otherwise extract, clean, truncate and classify. -/
def fetchHttp (env : FetchEnv) (u : String) (maxChars : Nat := 8000) :
    TextFetchResult :=
  match env.httpGet u with
  | .error e => ⟨u, "", "http", "error", some e⟩
  | .ok (code, html) =>
      if code ∈ blockedCodes then
        ⟨u, "", "http", "blocked", some ("http " ++ toString code)⟩
      else if 400 ≤ code then
        ⟨u, "", "http", "error", some ("http " ++ toString code)⟩
      else
        let text := cleanText (env.extractBody html)
        let text1 := if maxChars ≠ 0 && text.length > maxChars
          then (⟨text.data.take maxChars⟩ : String) else text
        ⟨u, text1, "http", classifyText text1, none⟩

/-- `_fetch_cdp`: no endpoint configured is an error; the tanitjobs host
uses the dedicated fetcher; exceptions become `error`; otherwise classify. -/
def fetchCdp (env : FetchEnv) (cdpUrl : Option String) (u : String) :
    TextFetchResult :=
  match cdpUrl with
  | none => ⟨u, "", "cdp", "error", some "CDP_URL not set"⟩
  | some _ =>
      match (if strOccursIn "tanitjobs.com" (hostOf u) then env.tanitPage u
             else env.cdpPage u) with
      | .error e => ⟨u, "", "cdp", "error", some e⟩
      | .ok text => ⟨u, text, "cdp", classifyText text, none⟩

/-- `_cdp_first`. -/
def cdpFirst (env : FetchEnv) (u : String) : Bool :=
  if strOccursIn "tanitjobs.com" (hostOf u) then true
  else if strOccursIn "weworkremotely.com" (hostOf u) then env.cfProbe u
  else false

/-- One row of the `job_text_cache` table. -/
structure CacheEntry where
  url : String
  text : String
  method : String
  fetched_at : Nat
  status : String
  error : Option String
deriving DecidableEq

/-- The table, keyed by `url_canon` (at most one row per key by upsert). -/
abbrev TextCache := List (String × CacheEntry)

def cacheGet (cache : TextCache) (key : String) : Option CacheEntry :=
  (cache.find? fun p => p.1 = key).map Prod.snd

/-- `JobTextCacheDB.upsert`: INSERT, or UPDATE in place on key conflict. -/
def cacheUpsert (cache : TextCache) (key : String) (e : CacheEntry) : TextCache :=
  if (cache.find? fun p => p.1 = key).isSome then
    cache.map fun p => if p.1 = key then (key, e) else p
  else cache ++ [(key, e)]

/-- The summary dict of `extract_text_for_urls` (the `errors` key is added
on return, mirroring `{**stats, "errors": stats.get("error", 0)}`). -/
structure ExtractStats where
  candidates : Nat
  fetched : Nat
  ok : Nat
  blocked : Nat
  empty : Nat
  error : Nat
  errors : Nat
deriving DecidableEq

def zeroStats : ExtractStats := ⟨0, 0, 0, 0, 0, 0, 0⟩

/-- `if res.status in stats: stats[res.status] += 1` over the keys present
in the dict while recording (no `errors` key yet). -/
def bumpStatus (s : ExtractStats) (status : String) : ExtractStats :=
  if status = "candidates" then { s with candidates := s.candidates + 1 }
  else if status = "fetched" then { s with fetched := s.fetched + 1 }
  else if status = "ok" then { s with ok := s.ok + 1 }
  else if status = "blocked" then { s with blocked := s.blocked + 1 }
  else if status = "empty" then { s with empty := s.empty + 1 }
  else if status = "error" then { s with error := s.error + 1 }
  else s

/-- Engine state: the cache plus the summary counters, with two ghost logs
(fetch attempts as (method, raw url); cache writes as (key, entry)). -/
structure EngState where
  cache : TextCache
  stats : ExtractStats
  attempts : List (String × String)
  recs : List (String × CacheEntry)
deriving DecidableEq

def logAttempt (st : EngState) (method u : String) : EngState :=
  { st with attempts := st.attempts ++ [(method, u)] }

def entryOf (now : Nat) (res : TextFetchResult) : CacheEntry :=
  ⟨res.url, res.text, res.method, now, res.status, res.error⟩

/-- `_record`: upsert keyed by the canonical URL, bump `fetched` and the
status counter. -/
def recordRes (now : Nat) (st : EngState) (res : TextFetchResult) : EngState :=
  let uc := canonicalize_url res.url
  { st with
    cache := cacheUpsert st.cache uc (entryOf now res)
    recs := st.recs ++ [(uc, entryOf now res)]
    stats := bumpStatus { st.stats with fetched := st.stats.fetched + 1 } res.status }

/-- Order-preserving dedup (`seen` set + append loop). -/
def dedupKeep (seen : List String) : List String → List String
  | [] => []
  | u :: rest =>
      if u ∈ seen then dedupKeep seen rest else u :: dedupKeep (u :: seen) rest

/-- The candidate filter chain of `extract_text_for_urls`: drop falsy URLs,
dedup preserving order, cap at `max_jobs` (no cap when 0, Python falsiness),
and, without `refresh`, drop URLs whose cached row has status `ok` and
non-empty text. -/
def filterCandidates (cache0 : TextCache) (maxJobs : Nat) (refresh : Bool)
    (urls0 : List String) : List String :=
  let urls1 := urls0.filter fun u => u ≠ ""
  let urls2 := dedupKeep [] urls1
  let urls3 := if maxJobs ≠ 0 && urls2.length > maxJobs then urls2.take maxJobs else urls2
  if refresh then urls3
  else urls3.filter fun u =>
    match cacheGet cache0 (canonicalize_url u) with
    | some row => !(row.status = "ok" && row.text ≠ "")
    | none => true

/-- `extract_text_for_urls`.  Both source early returns produce the same
all-zero summary and untouched cache, so they are collapsed into one
emptiness check on the filtered candidates.  The three fetch loops are the
CDP-first sequential loop, the HTTP pool (determinized to submission
order), and the CDP fallback loop. -/
def extractTextForUrls (env : FetchEnv) (now : Nat) (cache0 : TextCache)
    (cdpUrl : Option String) (maxJobs : Nat) (refresh : Bool)
    (urls0 : List String) : EngState :=
  let urls := filterCandidates cache0 maxJobs refresh urls0
  if urls.isEmpty then ⟨cache0, zeroStats, [], []⟩
  else
    let cdpFirstUrls := urls.filter (cdpFirst env)
    let httpFirstUrls := urls.filter fun u => !(u ∈ cdpFirstUrls)
    let st0 : EngState := ⟨cache0, { zeroStats with candidates := urls.length }, [], []⟩
    let st1 := cdpFirstUrls.foldl
      (fun st u => recordRes now (logAttempt st "cdp" u) (fetchCdp env cdpUrl u)) st0
    let httpResults := httpFirstUrls.map fun u => (u, fetchHttp env u)
    let st2 := { st1 with attempts := st1.attempts ++ httpFirstUrls.map fun u => ("http", u) }
    let st3 := (httpResults.filter fun p => p.2.status = "ok" || cdpUrl.isNone).foldl
      (fun st p => recordRes now st p.2) st2
    let fallbackUrls := (httpResults.filter fun p => !(p.2.status = "ok" || cdpUrl.isNone)).map Prod.fst
    let st4 := fallbackUrls.foldl
      (fun st u => recordRes now (logAttempt st "cdp" u) (fetchCdp env cdpUrl u)) st3
    { st4 with stats := { st4.stats with errors := st4.stats.error } }

/-! ### The raising engine

`extract_text_for_urls` calls `canonicalize_url` on every deduped/capped
candidate (text_extraction.py line 190, and again in the refresh filter at
line 196) and `_host` — hence `urlparse` — on every surviving URL (line
208 via `_cdp_first`), all without a `try`.  A `ValueError` from
`urlsplit`'s bracketed-host checks therefore propagates out of the whole
call.  `extractTextForUrlsE` is `extractTextForUrls` with these raise
points restored, in source order: the falsy-URL early return comes before
any canonicalization, then line 190 canonicalizes the deduped/capped list,
then the refresh filter and `_cdp_first` run on the filtered list.  When
nothing raises, the result is exactly the run of `extractTextForUrls`. -/

/-- The `ValueError`, if any, of `canonicalize_url u` (text_extraction.py
lines 190/196/214): `urlsplit` on the stripped URL, skipped for `""`. -/
def canonRaise (u : String) : Option String :=
  if u = "" then none
  else pyUrlsplitNetlocError (pyUrlsplit (pyStripL u.data)).netloc

/-- The `ValueError`, if any, of `_host u` (line 208): `urlsplit` on the
raw URL. -/
def hostRaise (u : String) : Option String :=
  pyUrlsplitNetlocError (pyUrlsplit u.data).netloc

/-- The candidate list at line 190: falsy-filtered, deduped, capped — the
refresh filter has not yet run. -/
def precheckUrls (maxJobs : Nat) (urls0 : List String) : List String :=
  let urls1 := urls0.filter fun u => u ≠ ""
  let urls2 := dedupKeep [] urls1
  if maxJobs ≠ 0 && urls2.length > maxJobs then urls2.take maxJobs else urls2

/-- First raised message of `f` along a list comprehension, if any. -/
def firstRaise (f : String → Option String) : List String → Option String
  | [] => none
  | u :: rest => match f u with | some e => some e | none => firstRaise f rest

/-- `extract_text_for_urls` with the `urlsplit` `ValueError` path. -/
def extractTextForUrlsE (env : FetchEnv) (now : Nat) (cache0 : TextCache)
    (cdpUrl : Option String) (maxJobs : Nat) (refresh : Bool)
    (urls0 : List String) : Except String EngState :=
  if (urls0.filter fun u => u ≠ "").isEmpty then Except.ok ⟨cache0, zeroStats, [], []⟩
  else
    let urls3 := precheckUrls maxJobs urls0
    match firstRaise canonRaise urls3 with
    | some e => Except.error e
    | none =>
        let urls := if refresh then urls3 else urls3.filter fun u =>
            match cacheGet cache0 (canonicalize_url u) with
            | some row => !(row.status = "ok" && row.text ≠ "")
            | none => true
        if urls.isEmpty then Except.ok ⟨cache0, zeroStats, [], []⟩
        else
          match firstRaise hostRaise urls with
          | some e => Except.error e
          | none =>
              Except.ok (extractTextForUrls env now cache0 cdpUrl maxJobs refresh urls0)

/-! ### Closed forms for the run of the extraction engine -/

def cdpFirstUrlsOf (env : FetchEnv) (urls : List String) : List String :=
  urls.filter (cdpFirst env)

def httpFirstUrlsOf (env : FetchEnv) (urls : List String) : List String :=
  urls.filter fun u => !(u ∈ cdpFirstUrlsOf env urls)

def okOrNoCdp (cdpUrl : Option String) (p : String × TextFetchResult) : Bool :=
  p.2.status = "ok" || cdpUrl.isNone

def httpPairsOf (env : FetchEnv) (urls : List String) :
    List (String × TextFetchResult) :=
  (httpFirstUrlsOf env urls).map fun u => (u, fetchHttp env u)

def fallbackUrlsOf (env : FetchEnv) (cdpUrl : Option String) (urls : List String) :
    List String :=
  ((httpPairsOf env urls).filter fun p => !okOrNoCdp cdpUrl p).map Prod.fst

/-- All recorded results of a run, in recording order. -/
def allResultsOf (env : FetchEnv) (cdpUrl : Option String) (urls : List String) :
    List TextFetchResult :=
  (cdpFirstUrlsOf env urls).map (fetchCdp env cdpUrl)
  ++ ((httpPairsOf env urls).filter fun p => okOrNoCdp cdpUrl p).map Prod.snd
  ++ (fallbackUrlsOf env cdpUrl urls).map (fetchCdp env cdpUrl)

/-- All fetch attempts of a run, in order. -/
def allAttemptsOf (env : FetchEnv) (cdpUrl : Option String) (urls : List String) :
    List (String × String) :=
  (cdpFirstUrlsOf env urls).map (fun u => (("cdp" : String), u))
  ++ (httpFirstUrlsOf env urls).map (fun u => (("http" : String), u))
  ++ (fallbackUrlsOf env cdpUrl urls).map (fun u => (("cdp" : String), u))

def cacheAfter (now : Nat) (c : TextCache) (rs : List TextFetchResult) : TextCache :=
  rs.foldl (fun c r => cacheUpsert c (canonicalize_url r.url) (entryOf now r)) c

def statsAfter (s : ExtractStats) (statuses : List String) : ExtractStats :=
  statuses.foldl (fun s st => bumpStatus { s with fetched := s.fetched + 1 } st) s

def recsOf (now : Nat) (rs : List TextFetchResult) : List (String × CacheEntry) :=
  rs.map fun r => (canonicalize_url r.url, entryOf now r)

theorem foldRecordLog (now : Nat) (m : String) (f : String → TextFetchResult) :
    ∀ (us : List String) (st : EngState),
    us.foldl (fun st u => recordRes now (logAttempt st m u) (f u)) st
      = ⟨cacheAfter now st.cache (us.map f),
         statsAfter st.stats ((us.map f).map TextFetchResult.status),
         st.attempts ++ us.map (fun u => (m, u)),
         st.recs ++ recsOf now (us.map f)⟩ := by
  intro us
  induction us with
  | nil =>
      intro st
      simp [cacheAfter, statsAfter, recsOf]
  | cons u rest ih =>
      intro st
      show rest.foldl _ (recordRes now (logAttempt st m u) (f u)) = _
      rw [ih]
      simp [recordRes, logAttempt, cacheAfter, statsAfter, recsOf]

theorem foldRecordPairs (now : Nat) :
    ∀ (ps : List (String × TextFetchResult)) (st : EngState),
    ps.foldl (fun st p => recordRes now st p.2) st
      = ⟨cacheAfter now st.cache (ps.map Prod.snd),
         statsAfter st.stats ((ps.map Prod.snd).map TextFetchResult.status),
         st.attempts,
         st.recs ++ recsOf now (ps.map Prod.snd)⟩ := by
  intro ps
  induction ps with
  | nil =>
      intro st
      simp [cacheAfter, statsAfter, recsOf]
  | cons p rest ih =>
      intro st
      show rest.foldl _ (recordRes now st p.2) = _
      rw [ih]
      simp [recordRes, cacheAfter, statsAfter, recsOf]

/-- Closed form of a whole engine run. -/
theorem extract_run_eq (env : FetchEnv) (now : Nat) (cache0 : TextCache)
    (cdpUrl : Option String) (maxJobs : Nat) (refresh : Bool)
    (urls0 : List String) :
    extractTextForUrls env now cache0 cdpUrl maxJobs refresh urls0
      = (let urls := filterCandidates cache0 maxJobs refresh urls0
         if urls.isEmpty then ⟨cache0, zeroStats, [], []⟩
         else
           let rs := allResultsOf env cdpUrl urls
           ⟨cacheAfter now cache0 rs,
            (let s := statsAfter { zeroStats with candidates := urls.length }
               (rs.map TextFetchResult.status)
             { s with errors := s.error }),
            allAttemptsOf env cdpUrl urls,
            recsOf now rs⟩) := by
  unfold extractTextForUrls
  cases hE : (filterCandidates cache0 maxJobs refresh urls0).isEmpty with
  | true => simp [hE]
  | false =>
      simp only [hE, Bool.false_eq_true, if_false]
      rw [foldRecordLog, foldRecordPairs, foldRecordLog]
      simp [allResultsOf, allAttemptsOf, recsOf, cdpFirstUrlsOf,
        httpFirstUrlsOf, httpPairsOf, fallbackUrlsOf, okOrNoCdp,
        cacheAfter, statsAfter, List.foldl_append, List.map_append,
        List.append_assoc]

theorem extract_run_empty (env : FetchEnv) (now : Nat) (cache0 : TextCache)
    (cdpUrl : Option String) (maxJobs : Nat) (refresh : Bool)
    (urls0 : List String)
    (h : (filterCandidates cache0 maxJobs refresh urls0).isEmpty = true) :
    extractTextForUrls env now cache0 cdpUrl maxJobs refresh urls0
      = ⟨cache0, zeroStats, [], []⟩ := by
  rw [extract_run_eq]
  simp [h]

theorem extract_run_nonempty (env : FetchEnv) (now : Nat) (cache0 : TextCache)
    (cdpUrl : Option String) (maxJobs : Nat) (refresh : Bool)
    (urls0 : List String)
    (h : (filterCandidates cache0 maxJobs refresh urls0).isEmpty = false) :
    extractTextForUrls env now cache0 cdpUrl maxJobs refresh urls0
      = ⟨cacheAfter now cache0
           (allResultsOf env cdpUrl (filterCandidates cache0 maxJobs refresh urls0)),
         { statsAfter
             { zeroStats with
               candidates := (filterCandidates cache0 maxJobs refresh urls0).length }
             ((allResultsOf env cdpUrl
               (filterCandidates cache0 maxJobs refresh urls0)).map TextFetchResult.status)
           with
           errors := (statsAfter
             { zeroStats with
               candidates := (filterCandidates cache0 maxJobs refresh urls0).length }
             ((allResultsOf env cdpUrl
               (filterCandidates cache0 maxJobs refresh urls0)).map TextFetchResult.status)).error },
         allAttemptsOf env cdpUrl (filterCandidates cache0 maxJobs refresh urls0),
         recsOf now
           (allResultsOf env cdpUrl (filterCandidates cache0 maxJobs refresh urls0))⟩ := by
  rw [extract_run_eq]
  simp only [h, Bool.false_eq_true, if_false]

/-! ### Facts about single fetches -/

theorem fetchHttp_url (env : FetchEnv) (u : String) : (fetchHttp env u).url = u := by
  unfold fetchHttp
  cases env.httpGet u with
  | error e => rfl
  | ok p =>
      dsimp only
      split
      · rfl
      · split
        · rfl
        · rfl

theorem fetchCdp_url (env : FetchEnv) (cdpUrl : Option String) (u : String) :
    (fetchCdp env cdpUrl u).url = u := by
  unfold fetchCdp
  cases cdpUrl with
  | none => rfl
  | some ep =>
      dsimp only
      cases (if strOccursIn "tanitjobs.com" (hostOf u) then env.tanitPage u
             else env.cdpPage u) with
      | error e => rfl
      | ok t => rfl

def terminalStatuses : List String := ["ok", "blocked", "empty", "error"]

theorem classifyText_mem (t : String) : classifyText t ∈ terminalStatuses := by
  unfold classifyText
  split
  · simp [terminalStatuses]
  · split
    · simp [terminalStatuses]
    · simp [terminalStatuses]

theorem fetchHttp_status_mem (env : FetchEnv) (u : String) :
    (fetchHttp env u).status ∈ terminalStatuses := by
  unfold fetchHttp
  cases env.httpGet u with
  | error e => simp [terminalStatuses]
  | ok p =>
      dsimp only
      split
      · simp [terminalStatuses]
      · split
        · simp [terminalStatuses]
        · exact classifyText_mem _

theorem fetchCdp_status_mem (env : FetchEnv) (cdpUrl : Option String) (u : String) :
    (fetchCdp env cdpUrl u).status ∈ terminalStatuses := by
  unfold fetchCdp
  cases cdpUrl with
  | none => simp [terminalStatuses]
  | some ep =>
      dsimp only
      cases (if strOccursIn "tanitjobs.com" (hostOf u) then env.tanitPage u
             else env.cdpPage u) with
      | error e => simp [terminalStatuses]
      | ok t => exact classifyText_mem _

theorem allResultsOf_status_mem (env : FetchEnv) (cdpUrl : Option String)
    (urls : List String) :
    ∀ r ∈ allResultsOf env cdpUrl urls, r.status ∈ terminalStatuses := by
  intro r hr
  rcases List.mem_append.1 hr with h12 | h3
  · rcases List.mem_append.1 h12 with h1 | h2
    · obtain ⟨u, _, rfl⟩ := List.mem_map.1 h1
      exact fetchCdp_status_mem env cdpUrl u
    · obtain ⟨p, hp, rfl⟩ := List.mem_map.1 h2
      obtain ⟨u, _, rfl⟩ := List.mem_map.1 (List.mem_of_mem_filter hp)
      exact fetchHttp_status_mem env u
  · obtain ⟨u, _, rfl⟩ := List.mem_map.1 h3
    exact fetchCdp_status_mem env cdpUrl u

/-! ### Facts about the counters -/

def sumStats (s : ExtractStats) : Nat := s.ok + s.blocked + s.empty + s.error

theorem bump_terminal (s : ExtractStats) (status : String)
    (h : status ∈ terminalStatuses) :
    (bumpStatus { s with fetched := s.fetched + 1 } status).fetched = s.fetched + 1
    ∧ sumStats (bumpStatus { s with fetched := s.fetched + 1 } status) = sumStats s + 1
    ∧ (bumpStatus { s with fetched := s.fetched + 1 } status).candidates = s.candidates
    ∧ (bumpStatus { s with fetched := s.fetched + 1 } status).errors = s.errors
    ∧ (bumpStatus { s with fetched := s.fetched + 1 } status).error
        = s.error + (if status = "error" then 1 else 0) := by
  simp only [terminalStatuses, List.mem_cons, List.mem_singleton] at h
  rcases h with rfl | rfl | rfl | rfl | h
  · simp [bumpStatus, sumStats]; omega
  · simp [bumpStatus, sumStats]; omega
  · simp [bumpStatus, sumStats]; omega
  · simp [bumpStatus, sumStats]; omega
  · exact absurd h (by simp)

theorem statsAfter_spec (statuses : List String) :
    ∀ s : ExtractStats, (∀ x ∈ statuses, x ∈ terminalStatuses) →
    (statsAfter s statuses).fetched = s.fetched + statuses.length
    ∧ sumStats (statsAfter s statuses) = sumStats s + statuses.length
    ∧ (statsAfter s statuses).candidates = s.candidates
    ∧ (statsAfter s statuses).errors = s.errors := by
  induction statuses with
  | nil => intro s _; simp [statsAfter, sumStats]
  | cons x rest ih =>
      intro s hmem
      have hx := hmem x (List.mem_cons_self x rest)
      have step := bump_terminal s x hx
      have tail := ih (bumpStatus { s with fetched := s.fetched + 1 } x)
        (fun y hy => hmem y (List.mem_cons_of_mem x hy))
      have hstep : statsAfter s (x :: rest)
          = statsAfter (bumpStatus { s with fetched := s.fetched + 1 } x) rest := rfl
      rw [hstep]
      refine ⟨?_, ?_, ?_, ?_⟩
      · rw [tail.1, step.1, List.length_cons]; omega
      · rw [tail.2.1, step.2.1, List.length_cons]; omega
      · rw [tail.2.2.1, step.2.2.1]
      · rw [tail.2.2.2, step.2.2.2.1]

/-! ### Facts about the cache -/

theorem cacheGet_upsert_self (c : TextCache) (k : String) (e : CacheEntry) :
    cacheGet (cacheUpsert c k e) k = some e := by
  unfold cacheUpsert
  split
  · rename_i hsome
    unfold cacheGet
    induction c with
    | nil => simp at hsome
    | cons p rest ih =>
        by_cases hk : p.1 = k
        · simp [List.find?, hk]
        · simp only [List.map_cons, if_neg hk, List.find?]
          rw [show (decide (p.1 = k)) = false by simp [hk]]
          apply ih
          simpa [List.find?, show (decide (p.1 = k)) = false by simp [hk]] using hsome
  · unfold cacheGet
    rename_i hnone
    have : c.find? (fun p => p.1 = k) = none := by
      cases h : c.find? (fun p => p.1 = k) with
      | none => rfl
      | some p => rw [h] at hnone; simp at hnone
    rw [List.find?_append, this]
    simp [List.find?]

theorem find?_map_upsert (k k' : String) (e : CacheEntry) (h : k' ≠ k)
    (c : TextCache) :
    (c.map fun p => if p.1 = k' then (k', e) else p).find? (fun p => p.1 = k)
      = c.find? (fun p => p.1 = k) := by
  induction c with
  | nil => rfl
  | cons p rest ih =>
      by_cases hk' : p.1 = k'
      · rw [List.map_cons, if_pos hk',
          List.find?_cons_of_neg _ (by simp [h]),
          List.find?_cons_of_neg _ (by simp [hk', h])]
        exact ih
      · by_cases hk : p.1 = k
        · rw [List.map_cons, if_neg hk', List.find?_cons_of_pos _ (by simp [hk]),
            List.find?_cons_of_pos _ (by simp [hk])]
        · rw [List.map_cons, if_neg hk', List.find?_cons_of_neg _ (by simp [hk]),
            List.find?_cons_of_neg _ (by simp [hk])]
          exact ih

theorem cacheGet_upsert_ne (c : TextCache) (k k' : String) (e : CacheEntry)
    (h : k' ≠ k) : cacheGet (cacheUpsert c k' e) k = cacheGet c k := by
  unfold cacheUpsert
  split
  · unfold cacheGet
    rw [find?_map_upsert k k' e h]
  · unfold cacheGet
    rw [List.find?_append]
    cases hc : c.find? (fun p => p.1 = k) with
    | some p => simp
    | none => simp [List.find?, h]

theorem cacheAfter_get_of_not_mem (now : Nat) (k : String) :
    ∀ (rs : List TextFetchResult) (c : TextCache),
    (∀ r ∈ rs, canonicalize_url r.url ≠ k) →
    cacheGet (cacheAfter now c rs) k = cacheGet c k := by
  intro rs
  induction rs with
  | nil => intro c _; rfl
  | cons r rest ih =>
      intro c hne
      show cacheGet (cacheAfter now (cacheUpsert c (canonicalize_url r.url) (entryOf now r)) rest) k = _
      rw [ih _ (fun r' hr' => hne r' (List.mem_cons_of_mem r hr')),
        cacheGet_upsert_ne _ _ _ _ (hne r (List.mem_cons_self r rest))]

theorem cacheAfter_get_last (now : Nat) (k : String) (rs1 rs2 : List TextFetchResult)
    (r : TextFetchResult) (c : TextCache) (hk : canonicalize_url r.url = k)
    (h2 : ∀ r' ∈ rs2, canonicalize_url r'.url ≠ k) :
    cacheGet (cacheAfter now c (rs1 ++ r :: rs2)) k = some (entryOf now r) := by
  unfold cacheAfter
  rw [List.foldl_append]
  show cacheGet (cacheAfter now (cacheUpsert (cacheAfter now c rs1) (canonicalize_url r.url) (entryOf now r)) rs2) k = _
  rw [cacheAfter_get_of_not_mem now k rs2 _ h2, hk, cacheGet_upsert_self]

/-! ### Facts about the candidate lists -/

theorem length_filter_partition {α : Type} (p : α → Bool) (l : List α) :
    (l.filter p).length + (l.filter fun a => !(p a)).length = l.length := by
  induction l with
  | nil => rfl
  | cons a rest ih =>
      by_cases h : p a
      · simp only [List.filter, h, Bool.not_true, List.length_cons]
        omega
      · have h' : p a = false := by simp [h]
        simp only [List.filter, h', Bool.not_false, List.length_cons]
        omega

theorem httpFirstUrlsOf_eq (env : FetchEnv) (urls : List String) :
    httpFirstUrlsOf env urls = urls.filter fun u => !(cdpFirst env u) := by
  unfold httpFirstUrlsOf cdpFirstUrlsOf
  apply List.filter_congr
  intro u hu
  by_cases hc : cdpFirst env u
  · simp [List.mem_filter, hu, hc]
  · simp [List.mem_filter, hc]

theorem fallbackUrlsOf_eq (env : FetchEnv) (cdpUrl : Option String)
    (urls : List String) :
    fallbackUrlsOf env cdpUrl urls
      = (httpFirstUrlsOf env urls).filter
          fun u => !okOrNoCdp cdpUrl (u, fetchHttp env u) := by
  unfold fallbackUrlsOf httpPairsOf
  generalize httpFirstUrlsOf env urls = l
  induction l with
  | nil => rfl
  | cons a rest ih =>
      by_cases h : okOrNoCdp cdpUrl (a, fetchHttp env a)
      · simpa [h] using ih
      · simpa [h] using ih

theorem okPairsOf_eq (env : FetchEnv) (cdpUrl : Option String)
    (urls : List String) :
    ((httpPairsOf env urls).filter fun p => okOrNoCdp cdpUrl p).map Prod.snd
      = ((httpFirstUrlsOf env urls).filter
          fun u => okOrNoCdp cdpUrl (u, fetchHttp env u)).map
            fun u => fetchHttp env u := by
  unfold httpPairsOf
  generalize httpFirstUrlsOf env urls = l
  induction l with
  | nil => rfl
  | cons a rest ih =>
      by_cases h : okOrNoCdp cdpUrl (a, fetchHttp env a)
      · simpa [h] using ih
      · simpa [h] using ih

theorem dedupKeep_nodup (l : List String) :
    ∀ seen : List String,
    (dedupKeep seen l).Nodup ∧ ∀ u ∈ dedupKeep seen l, u ∉ seen := by
  induction l with
  | nil => intro seen; exact ⟨List.nodup_nil, by intro u h; exact absurd h (List.not_mem_nil u)⟩
  | cons a rest ih =>
      intro seen
      by_cases h : a ∈ seen
      · simpa [dedupKeep, h] using ih seen
      · have tail := ih (a :: seen)
        refine ⟨?_, ?_⟩
        · simp only [dedupKeep, if_neg h]
          refine List.nodup_cons.2 ⟨?_, tail.1⟩
          intro hmem
          exact tail.2 a hmem (List.mem_cons_self a seen)
        · intro u hu
          simp only [dedupKeep, if_neg h, List.mem_cons] at hu
          rcases hu with rfl | hu
          · exact h
          · intro hs
            exact tail.2 u hu (List.mem_cons_of_mem a hs)

theorem filterCandidates_nodup (cache0 : TextCache) (maxJobs : Nat)
    (refresh : Bool) (urls0 : List String) :
    (filterCandidates cache0 maxJobs refresh urls0).Nodup := by
  unfold filterCandidates
  have h2 := (dedupKeep_nodup (urls0.filter fun u => u ≠ "") []).1
  have h3 : (if maxJobs ≠ 0 && (dedupKeep [] (urls0.filter fun u => u ≠ "")).length > maxJobs
      then (dedupKeep [] (urls0.filter fun u => u ≠ "")).take maxJobs
      else dedupKeep [] (urls0.filter fun u => u ≠ "")).Nodup := by
    split
    · exact List.Nodup.sublist (List.take_sublist _ _) h2
    · exact h2
  split
  · exact h3
  · exact List.Nodup.filter _ h3

/-- Every result of a run carries the raw URL it was fetched for, and that
URL is one of the filtered candidates. -/
theorem allResultsOf_url_mem (env : FetchEnv) (cdpUrl : Option String)
    (urls : List String) :
    ∀ r ∈ allResultsOf env cdpUrl urls, r.url ∈ urls := by
  intro r hr
  rcases List.mem_append.1 hr with h12 | h3
  · rcases List.mem_append.1 h12 with h1 | h2
    · obtain ⟨u, hu, rfl⟩ := List.mem_map.1 h1
      rw [fetchCdp_url]
      exact List.mem_of_mem_filter hu
    · obtain ⟨p, hp, rfl⟩ := List.mem_map.1 h2
      obtain ⟨u, hu, rfl⟩ := List.mem_map.1 (List.mem_of_mem_filter hp)
      rw [fetchHttp_url]
      exact List.mem_of_mem_filter hu
  · obtain ⟨u, hu, rfl⟩ := List.mem_map.1 h3
    rw [fetchCdp_url]
    have : u ∈ httpFirstUrlsOf env urls := by
      rw [fallbackUrlsOf_eq] at hu
      exact List.mem_of_mem_filter hu
    exact List.mem_of_mem_filter this

theorem allResultsOf_length (env : FetchEnv) (cdpUrl : Option String)
    (urls : List String) :
    (allResultsOf env cdpUrl urls).length = urls.length := by
  unfold allResultsOf
  rw [List.length_append, List.length_append, okPairsOf_eq, fallbackUrlsOf_eq,
    List.length_map, List.length_map, List.length_map]
  unfold cdpFirstUrlsOf
  rw [httpFirstUrlsOf_eq]
  have hpart2 : ((urls.filter fun u => !cdpFirst env u).filter
        (fun u => okOrNoCdp cdpUrl (u, fetchHttp env u))).length
      + ((urls.filter fun u => !cdpFirst env u).filter
        (fun u => !okOrNoCdp cdpUrl (u, fetchHttp env u))).length
      = (urls.filter fun u => !cdpFirst env u).length :=
    length_filter_partition _ _
  have hpart1 : ((urls.filter (cdpFirst env)).length
      + (urls.filter fun u => !cdpFirst env u).length) = urls.length :=
    length_filter_partition _ _
  omega

theorem allAttemptsOf_url_mem (env : FetchEnv) (cdpUrl : Option String)
    (urls : List String) :
    ∀ a ∈ allAttemptsOf env cdpUrl urls, a.2 ∈ urls := by
  intro a ha
  rcases List.mem_append.1 ha with h12 | h3
  · rcases List.mem_append.1 h12 with h1 | h2
    · obtain ⟨u, hu, rfl⟩ := List.mem_map.1 h1
      exact List.mem_of_mem_filter hu
    · obtain ⟨u, hu, rfl⟩ := List.mem_map.1 h2
      exact List.mem_of_mem_filter hu
  · obtain ⟨u, hu, rfl⟩ := List.mem_map.1 h3
    rw [fallbackUrlsOf_eq] at hu
    exact List.mem_of_mem_filter (List.mem_of_mem_filter hu)

theorem fetchCdp_method (env : FetchEnv) (cdpUrl : Option String) (u : String) :
    (fetchCdp env cdpUrl u).method = "cdp" := by
  unfold fetchCdp
  cases cdpUrl with
  | none => rfl
  | some ep =>
      dsimp only
      cases (if strOccursIn "tanitjobs.com" (hostOf u) then env.tanitPage u
             else env.cdpPage u) with
      | error e => rfl
      | ok t => rfl

theorem get?_some_of_mem {α : Type} {a : α} :
    ∀ {l : List α}, a ∈ l → ∃ n, l.get? n = some a := by
  intro l h
  induction l with
  | nil => cases h
  | cons b t ih =>
      rcases List.mem_cons.1 h with rfl | h'
      · exact ⟨0, rfl⟩
      · obtain ⟨n, hn⟩ := ih h'
        exact ⟨n + 1, by simpa using hn⟩

theorem get?_some_lt {α : Type} {a : α} {l : List α} {n : Nat}
    (h : l.get? n = some a) : n < l.length := by
  by_contra hge
  rw [List.get?_eq_none.2 (Nat.le_of_not_lt hge)] at h
  cases h

/-! ### Claim theorems for the text extraction engine -/

/-- C10 — Counter consistency: in the summary of `extract_text_for_urls`,
`fetched` equals `ok + blocked + empty + error` and equals `candidates`,
and the `errors` key equals the `error` key (proved unconditionally: it also
holds with all counters zero when nothing survives the filters). -/
theorem extract_counters_consistent (env : FetchEnv) (now : Nat)
    (cache0 : TextCache) (cdpUrl : Option String) (maxJobs : Nat)
    (refresh : Bool) (urls0 : List String) :
    (extractTextForUrls env now cache0 cdpUrl maxJobs refresh urls0).stats.fetched
      = (extractTextForUrls env now cache0 cdpUrl maxJobs refresh urls0).stats.ok
        + (extractTextForUrls env now cache0 cdpUrl maxJobs refresh urls0).stats.blocked
        + (extractTextForUrls env now cache0 cdpUrl maxJobs refresh urls0).stats.empty
        + (extractTextForUrls env now cache0 cdpUrl maxJobs refresh urls0).stats.error
    ∧ (extractTextForUrls env now cache0 cdpUrl maxJobs refresh urls0).stats.fetched
      = (extractTextForUrls env now cache0 cdpUrl maxJobs refresh urls0).stats.candidates
    ∧ (extractTextForUrls env now cache0 cdpUrl maxJobs refresh urls0).stats.errors
      = (extractTextForUrls env now cache0 cdpUrl maxJobs refresh urls0).stats.error := by
  cases hE : (filterCandidates cache0 maxJobs refresh urls0).isEmpty with
  | true =>
      rw [extract_run_empty env now cache0 cdpUrl maxJobs refresh urls0 hE]
      exact ⟨rfl, rfl, rfl⟩
  | false =>
      rw [extract_run_nonempty env now cache0 cdpUrl maxJobs refresh urls0 hE]
      have hmem : ∀ x ∈ (allResultsOf env cdpUrl
          (filterCandidates cache0 maxJobs refresh urls0)).map TextFetchResult.status,
          x ∈ terminalStatuses := by
        intro x hx
        obtain ⟨r, hr, rfl⟩ := List.mem_map.1 hx
        exact allResultsOf_status_mem env cdpUrl _ r hr
      obtain ⟨hf, hsum, hcand, herr⟩ := statsAfter_spec _
        { zeroStats with candidates := (filterCandidates cache0 maxJobs refresh urls0).length }
        hmem
      have hlen := allResultsOf_length env cdpUrl
        (filterCandidates cache0 maxJobs refresh urls0)
      set s := statsAfter
        { zeroStats with candidates := (filterCandidates cache0 maxJobs refresh urls0).length }
        ((allResultsOf env cdpUrl
          (filterCandidates cache0 maxJobs refresh urls0)).map TextFetchResult.status) with hsdef
      have hf' : s.fetched = ((allResultsOf env cdpUrl
          (filterCandidates cache0 maxJobs refresh urls0)).map TextFetchResult.status).length := by
        simpa [zeroStats] using hf
      have hsum' : sumStats s = ((allResultsOf env cdpUrl
          (filterCandidates cache0 maxJobs refresh urls0)).map TextFetchResult.status).length := by
        simpa [sumStats, zeroStats] using hsum
      have hcand' : s.candidates = (filterCandidates cache0 maxJobs refresh urls0).length := by
        simpa [zeroStats] using hcand
      refine ⟨?_, ?_, rfl⟩
      · show s.fetched = s.ok + s.blocked + s.empty + s.error
        rw [hf']
        exact hsum'.symm
      · show s.fetched = s.candidates
        rw [hf', hcand', List.length_map, hlen]

/-- C6 — Cache skip with `refresh=false`: a URL whose canonical key has a
cached row with status `ok` and non-empty text triggers no HTTP or browser
fetch (for it or for any URL sharing its canonical key), its cache row is
unchanged, and nothing is recorded (hence counted) under its key; `fetched`
counts exactly the recorded results. -/
theorem extract_cache_skip (env : FetchEnv) (now : Nat) (cache0 : TextCache)
    (cdpUrl : Option String) (maxJobs : Nat) (urls0 : List String)
    (u : String) (e : CacheEntry)
    (he : cacheGet cache0 (canonicalize_url u) = some e)
    (hst : e.status = "ok") (htx : e.text ≠ "") :
    (∀ a ∈ (extractTextForUrls env now cache0 cdpUrl maxJobs false urls0).attempts,
        canonicalize_url a.2 ≠ canonicalize_url u)
    ∧ cacheGet (extractTextForUrls env now cache0 cdpUrl maxJobs false urls0).cache
        (canonicalize_url u) = some e
    ∧ (∀ p ∈ (extractTextForUrls env now cache0 cdpUrl maxJobs false urls0).recs,
        p.1 ≠ canonicalize_url u)
    ∧ (extractTextForUrls env now cache0 cdpUrl maxJobs false urls0).stats.fetched
      = (extractTextForUrls env now cache0 cdpUrl maxJobs false urls0).recs.length := by
  have hA : ∀ u' ∈ filterCandidates cache0 maxJobs false urls0,
      canonicalize_url u' ≠ canonicalize_url u := by
    intro u' hmem' heq
    have hfc : filterCandidates cache0 maxJobs false urls0
        = (if maxJobs ≠ 0 && (dedupKeep [] (urls0.filter fun v => v ≠ "")).length > maxJobs
           then (dedupKeep [] (urls0.filter fun v => v ≠ "")).take maxJobs
           else dedupKeep [] (urls0.filter fun v => v ≠ "")).filter
          (fun v => match cacheGet cache0 (canonicalize_url v) with
                    | some row => !(row.status = "ok" && row.text ≠ "")
                    | none => true) := rfl
    rw [hfc] at hmem'
    have hpred := List.of_mem_filter hmem'
    rw [heq, he] at hpred
    simp [hst, htx] at hpred
  cases hE : (filterCandidates cache0 maxJobs false urls0).isEmpty with
  | true =>
      rw [extract_run_empty env now cache0 cdpUrl maxJobs false urls0 hE]
      refine ⟨?_, he, ?_, rfl⟩
      · intro a ha
        exact absurd ha (List.not_mem_nil a)
      · intro p hp
        exact absurd hp (List.not_mem_nil p)
  | false =>
      rw [extract_run_nonempty env now cache0 cdpUrl maxJobs false urls0 hE]
      have hrs : ∀ r ∈ allResultsOf env cdpUrl
          (filterCandidates cache0 maxJobs false urls0),
          canonicalize_url r.url ≠ canonicalize_url u := by
        intro r hr
        exact hA r.url (allResultsOf_url_mem env cdpUrl _ r hr)
      refine ⟨?_, ?_, ?_, ?_⟩
      · intro a ha
        exact hA a.2 (allAttemptsOf_url_mem env cdpUrl _ a ha)
      · rw [cacheAfter_get_of_not_mem now _ _ _ hrs]
        exact he
      · intro p hp
        obtain ⟨r, hr, rfl⟩ := List.mem_map.1 hp
        exact hrs r hr
      · have hmem : ∀ x ∈ (allResultsOf env cdpUrl
            (filterCandidates cache0 maxJobs false urls0)).map TextFetchResult.status,
            x ∈ terminalStatuses := by
          intro x hx
          obtain ⟨r, hr, rfl⟩ := List.mem_map.1 hx
          exact allResultsOf_status_mem env cdpUrl _ r hr
        have hspec := statsAfter_spec _
          { zeroStats with candidates := (filterCandidates cache0 maxJobs false urls0).length }
          hmem
        show (statsAfter
            { zeroStats with candidates := (filterCandidates cache0 maxJobs false urls0).length }
            ((allResultsOf env cdpUrl (filterCandidates cache0 maxJobs false urls0)).map
              TextFetchResult.status)).fetched
          = (recsOf now (allResultsOf env cdpUrl (filterCandidates cache0 maxJobs false urls0))).length
        rw [hspec.1]
        simp [recsOf, zeroStats]

/-- C5 — Text status classification: text containing any fixed marker
(case-insensitive substring, the `_is_blocked_text` check) classifies
`blocked` regardless of length; otherwise length below 200 is `empty` and
length at least 200 is `ok`; on the HTTP path a status code in
{403, 429, 503, 520, 522, 523, 524} yields `blocked` and any other code
≥ 400 yields `error`, before any body-text classification. -/
theorem classify_text_and_http_codes :
    (∀ t m, m ∈ blockedMarkers → occursIn m.data (toLowerL t.data) = true →
        classifyText t = "blocked")
    ∧ (∀ t, isBlockedText t = true → classifyText t = "blocked")
    ∧ (∀ t, isBlockedText t = false → t.length < 200 → classifyText t = "empty")
    ∧ (∀ t, isBlockedText t = false → 200 ≤ t.length → classifyText t = "ok")
    ∧ (∀ (env : FetchEnv) (u : String) (code : Nat) (html : String),
        env.httpGet u = Except.ok (code, html) → code ∈ blockedCodes →
        fetchHttp env u = ⟨u, "", "http", "blocked", some ("http " ++ toString code)⟩)
    ∧ (∀ (env : FetchEnv) (u : String) (code : Nat) (html : String),
        env.httpGet u = Except.ok (code, html) → code ∉ blockedCodes → 400 ≤ code →
        fetchHttp env u = ⟨u, "", "http", "error", some ("http " ++ toString code)⟩) := by
  have hblocked : ∀ t, isBlockedText t = true → classifyText t = "blocked" := by
    intro t h
    unfold classifyText
    rw [h]
    rfl
  refine ⟨?_, hblocked, ?_, ?_, ?_, ?_⟩
  · intro t m hm hocc
    apply hblocked
    unfold isBlockedText
    have hne : (toLowerL t.data).isEmpty = false := by
      cases hd : toLowerL t.data with
      | nil =>
          rw [hd] at hocc
          have : m.data ≠ [] := by
            simp only [blockedMarkers, List.mem_cons, List.mem_singleton] at hm
            rcases hm with rfl | rfl | rfl | rfl | rfl | rfl | h
            · decide
            · decide
            · decide
            · decide
            · decide
            · decide
            · exact absurd h (by simp)
          simp [occursIn, List.isEmpty] at hocc
          cases hmd : m.data with
          | nil => exact absurd hmd this
          | cons c cs => rw [hmd] at hocc; exact absurd hocc (by simp)
      | cons c cs => rfl
    show (if (toLowerL t.data).isEmpty = true then false
          else blockedMarkers.any fun m' => occursIn m'.data (toLowerL t.data)) = true
    rw [hne]
    simp only [Bool.false_eq_true, if_false]
    exact List.any_eq_true.2 ⟨m, hm, hocc⟩
  · intro t h hlen
    unfold classifyText
    rw [h]
    have hd : decide (t.length < 200) = true := decide_eq_true hlen
    simp only [Bool.false_eq_true, if_false, hd, Bool.or_true, if_true]
  · intro t h hlen
    unfold classifyText
    rw [h]
    have h1 : t ≠ "" := by
      intro he
      rw [he] at hlen
      exact absurd hlen (by decide)
    have hd : decide (t.length < 200) = false := decide_eq_false (Nat.not_lt.2 hlen)
    have he : decide (t = "") = false := decide_eq_false h1
    simp only [Bool.false_eq_true, if_false, hd, he, Bool.or_false]
  · intro env u code html hresp hcode
    unfold fetchHttp
    rw [hresp]
    simp only [hcode, if_pos]
  · intro env u code html hresp hcode h400
    unfold fetchHttp
    rw [hresp]
    simp only [if_neg hcode, if_pos h400]

set_option maxRecDepth 40000 in
/-- Witness for C5: a blocked marker, the 199/200 boundary, and the 403/404
code dispatch at a concrete environment. -/
theorem classify_text_witness :
    occursIn "just a moment".data (toLowerL "Just a MOMENT please".data) = true
    ∧ classifyText "Just a MOMENT please" = "blocked"
    ∧ isBlockedText (String.mk (List.replicate 199 'a')) = false
    ∧ classifyText (String.mk (List.replicate 199 'a')) = "empty"
    ∧ isBlockedText (String.mk (List.replicate 200 'a')) = false
    ∧ classifyText (String.mk (List.replicate 200 'a')) = "ok"
    ∧ fetchHttp ⟨fun _ => Except.ok (403, "b"), fun s => s,
        fun _ => Except.error "c", fun _ => Except.error "c", fun _ => false⟩ "u"
      = ⟨"u", "", "http", "blocked", some "http 403"⟩
    ∧ fetchHttp ⟨fun _ => Except.ok (404, "b"), fun s => s,
        fun _ => Except.error "c", fun _ => Except.error "c", fun _ => false⟩ "u"
      = ⟨"u", "", "http", "error", some "http 404"⟩ :=
  ⟨by decide,
   classify_text_and_http_codes.1 "Just a MOMENT please" "just a moment"
     (by decide) (by decide),
   by decide,
   classify_text_and_http_codes.2.2.1 (String.mk (List.replicate 199 'a'))
     (by decide) (by decide),
   by decide,
   classify_text_and_http_codes.2.2.2.1 (String.mk (List.replicate 200 'a'))
     (by decide) (by decide),
   (classify_text_and_http_codes.2.2.2.2.1
     ⟨fun _ => Except.ok (403, "b"), fun s => s, fun _ => Except.error "c",
      fun _ => Except.error "c", fun _ => false⟩ "u" 403 "b" rfl (by decide)).trans
     (by decide),
   (classify_text_and_http_codes.2.2.2.2.2
     ⟨fun _ => Except.ok (404, "b"), fun s => s, fun _ => Except.error "c",
      fun _ => Except.error "c", fun _ => false⟩ "u" 404 "b" rfl (by decide)
     (by decide)).trans (by decide)⟩

/-- Witness for C6: one URL already cached `ok` with text; nothing fetched. -/
theorem extract_cache_skip_witness :
    cacheGet [("http://c.com/x", (⟨"http://c.com/x", "T", "http", 1, "ok", none⟩ : CacheEntry))]
        (canonicalize_url "http://c.com/x")
      = some ⟨"http://c.com/x", "T", "http", 1, "ok", none⟩
    ∧ cacheGet (extractTextForUrls
        ⟨fun _ => Except.error "net", fun s => s, fun _ => Except.error "c",
         fun _ => Except.error "c", fun _ => false⟩ 2
        [("http://c.com/x", ⟨"http://c.com/x", "T", "http", 1, "ok", none⟩)]
        none 50 false ["http://c.com/x"]).cache (canonicalize_url "http://c.com/x")
      = some ⟨"http://c.com/x", "T", "http", 1, "ok", none⟩ :=
  ⟨by decide,
   (extract_cache_skip
      ⟨fun _ => Except.error "net", fun s => s, fun _ => Except.error "c",
       fun _ => Except.error "c", fun _ => false⟩ 2
      [("http://c.com/x", ⟨"http://c.com/x", "T", "http", 1, "ok", none⟩)]
      none 50 ["http://c.com/x"] "http://c.com/x"
      ⟨"http://c.com/x", "T", "http", 1, "ok", none⟩
      (by decide) (by decide) (by decide)).2.1⟩

/-- A 200-character plain text with no blocked marker (classifies `ok`). -/
def okText200 : String := ⟨List.replicate 200 'a'⟩

/-- Environment whose HTTP path is always blocked (403) and whose browser
path returns good text: the HTTP-blocked-then-browser-fallback scenario. -/
def envHttpBlocked : FetchEnv :=
  ⟨fun _ => Except.ok (403, ""), fun s => s, fun _ => Except.ok okText200,
   fun _ => Except.ok "", fun _ => false⟩

set_option maxRecDepth 40000 in
/-- Counterexample to C7 as stated: in a run where the single URL's HTTP
fetch is blocked and a browser endpoint is configured, two fetch attempts
happen but only ONE cache write occurs — the blocked HTTP attempt writes
nothing (its result is discarded in favor of the browser fallback), so
"every fetch attempt writes or overwrites the cache entry" is false. -/
theorem extract_record_attempt_cex :
    (extractTextForUrls envHttpBlocked 3 [] (some "ws") 50 false
        ["http://ex.com/j"]).attempts
      = [("http", "http://ex.com/j"), ("cdp", "http://ex.com/j")]
    ∧ (extractTextForUrls envHttpBlocked 3 [] (some "ws") 50 false
        ["http://ex.com/j"]).recs.map (fun p => p.2.method) = ["cdp"] := by
  constructor
  · decide
  · decide

/-- C7 (amended) — Recording and fallback sequencing: every recorded result
is written under the canonical URL of its raw URL, regardless of outcome;
when the HTTP path for a candidate URL yields a non-`ok` status and a
browser endpoint is configured, the engine subsequently attempts the
browser path for that same URL (an `"http"` attempt strictly before a
`"cdp"` attempt), the final cache entry under the URL's canonical key is
the browser attempt's result, and the HTTP attempt's result is never
written at all (no recorded entry with method `"http"` has this URL). -/
theorem extract_fallback_sequencing (env : FetchEnv) (now : Nat)
    (cache0 : TextCache) (ep : String) (maxJobs : Nat) (refresh : Bool)
    (urls0 : List String) (u : String)
    (hmem : u ∈ filterCandidates cache0 maxJobs refresh urls0)
    (hcdp : cdpFirst env u = false)
    (hnok : (fetchHttp env u).status ≠ "ok")
    (huniq : ∀ u' ∈ filterCandidates cache0 maxJobs refresh urls0,
        u' ≠ u → canonicalize_url u' ≠ canonicalize_url u) :
    (∃ i j, i < j
      ∧ (extractTextForUrls env now cache0 (some ep) maxJobs refresh urls0).attempts.get? i
          = some ("http", u)
      ∧ (extractTextForUrls env now cache0 (some ep) maxJobs refresh urls0).attempts.get? j
          = some ("cdp", u))
    ∧ cacheGet (extractTextForUrls env now cache0 (some ep) maxJobs refresh urls0).cache
        (canonicalize_url u)
      = some (entryOf now (fetchCdp env (some ep) u))
    ∧ (canonicalize_url u, entryOf now (fetchCdp env (some ep) u))
      ∈ (extractTextForUrls env now cache0 (some ep) maxJobs refresh urls0).recs
    ∧ (∀ p ∈ (extractTextForUrls env now cache0 (some ep) maxJobs refresh urls0).recs,
        p.1 = canonicalize_url p.2.url)
    ∧ (∀ p ∈ (extractTextForUrls env now cache0 (some ep) maxJobs refresh urls0).recs,
        p.2.method = "http" → p.2.url ≠ u) := by
  have hE : (filterCandidates cache0 maxJobs refresh urls0).isEmpty = false := by
    cases h : filterCandidates cache0 maxJobs refresh urls0 with
    | nil => rw [h] at hmem; exact absurd hmem (List.not_mem_nil u)
    | cons a l => rfl
  rw [extract_run_nonempty env now cache0 (some ep) maxJobs refresh urls0 hE]
  have h_u_http : u ∈ httpFirstUrlsOf env (filterCandidates cache0 maxJobs refresh urls0) := by
    rw [httpFirstUrlsOf_eq]
    exact List.mem_filter.2 ⟨hmem, by simp [hcdp]⟩
  have h_u_fb : u ∈ fallbackUrlsOf env (some ep) (filterCandidates cache0 maxJobs refresh urls0) := by
    rw [fallbackUrlsOf_eq]
    refine List.mem_filter.2 ⟨h_u_http, ?_⟩
    simp [okOrNoCdp, hnok]
  have hhttpSub : ∀ x ∈ httpFirstUrlsOf env (filterCandidates cache0 maxJobs refresh urls0),
      x ∈ filterCandidates cache0 maxJobs refresh urls0 :=
    fun x hx => List.mem_of_mem_filter hx
  have hfbSub : ∀ x ∈ fallbackUrlsOf env (some ep) (filterCandidates cache0 maxJobs refresh urls0),
      x ∈ filterCandidates cache0 maxJobs refresh urls0 := by
    intro x hx
    rw [fallbackUrlsOf_eq] at hx
    exact hhttpSub x (List.mem_of_mem_filter hx)
  refine ⟨?_, ?_, ?_, ?_, ?_⟩
  · -- the "http" attempt comes strictly before the "cdp" fallback attempt
    obtain ⟨iB, hiB⟩ := get?_some_of_mem
      (List.mem_map_of_mem (fun v => (("http" : String), v)) h_u_http)
    obtain ⟨iC, hiC⟩ := get?_some_of_mem
      (List.mem_map_of_mem (fun v => (("cdp" : String), v)) h_u_fb)
    have hiBlt := get?_some_lt hiB
    rw [List.length_map] at hiBlt
    unfold allAttemptsOf
    set A := (cdpFirstUrlsOf env (filterCandidates cache0 maxJobs refresh urls0)).map
      (fun v => (("cdp" : String), v)) with hA
    set B := (httpFirstUrlsOf env (filterCandidates cache0 maxJobs refresh urls0)).map
      (fun v => (("http" : String), v)) with hB
    set C := (fallbackUrlsOf env (some ep) (filterCandidates cache0 maxJobs refresh urls0)).map
      (fun v => (("cdp" : String), v)) with hC
    refine ⟨A.length + iB, (A ++ B).length + iC, ?_, ?_, ?_⟩
    · rw [List.length_append]
      have : iB < B.length := by rw [hB, List.length_map]; exact hiBlt
      omega
    · rw [List.get?_append]
      · rw [List.get?_append_right (Nat.le_add_right _ _)]
        rw [Nat.add_sub_cancel_left]
        exact hiB
      · rw [List.length_append]
        have : iB < B.length := by rw [hB, List.length_map]; exact hiBlt
        omega
    · rw [List.get?_append_right (Nat.le_add_right _ _), Nat.add_sub_cancel_left]
      exact hiC
  · -- the final cache entry under the canonical key is the browser result
    have hNodupUrls := filterCandidates_nodup cache0 maxJobs refresh urls0
    have hNodupFb : (fallbackUrlsOf env (some ep)
        (filterCandidates cache0 maxJobs refresh urls0)).Nodup := by
      rw [fallbackUrlsOf_eq, httpFirstUrlsOf_eq]
      exact (hNodupUrls.filter _).filter _
    obtain ⟨fb1, fb2, hfb⟩ := List.append_of_mem h_u_fb
    have hufb2 : u ∉ fb2 := by
      have := hNodupFb
      rw [hfb] at this
      exact (List.nodup_cons.1 this.of_append_right).1
    have hfb2Sub : ∀ x ∈ fb2, x ∈ filterCandidates cache0 maxJobs refresh urls0 := by
      intro x hx
      exact hfbSub x (by rw [hfb]; exact List.mem_append_right _ (List.mem_cons_of_mem u hx))
    have hshape : allResultsOf env (some ep) (filterCandidates cache0 maxJobs refresh urls0)
        = (((cdpFirstUrlsOf env (filterCandidates cache0 maxJobs refresh urls0)).map
              (fetchCdp env (some ep))
            ++ ((httpPairsOf env (filterCandidates cache0 maxJobs refresh urls0)).filter
              fun p => okOrNoCdp (some ep) p).map Prod.snd)
            ++ fb1.map (fetchCdp env (some ep)))
          ++ (fetchCdp env (some ep) u :: fb2.map (fetchCdp env (some ep))) := by
      unfold allResultsOf
      rw [hfb]
      simp [List.map_append, List.append_assoc]
    rw [hshape]
    apply cacheAfter_get_last
    · rw [fetchCdp_url]
    · intro r' hr'
      obtain ⟨x, hx, rfl⟩ := List.mem_map.1 hr'
      rw [fetchCdp_url]
      have hxu : x ≠ u := fun h => hufb2 (h ▸ hx)
      exact huniq x (hfb2Sub x hx) hxu
  · -- the browser result is recorded
    show (canonicalize_url u, entryOf now (fetchCdp env (some ep) u))
      ∈ recsOf now (allResultsOf env (some ep) (filterCandidates cache0 maxJobs refresh urls0))
    unfold recsOf
    have hrmem : fetchCdp env (some ep) u
        ∈ allResultsOf env (some ep) (filterCandidates cache0 maxJobs refresh urls0) := by
      unfold allResultsOf
      exact List.mem_append_right _
        (List.mem_map_of_mem (fetchCdp env (some ep)) h_u_fb)
    have h2 := List.mem_map_of_mem
      (fun r => (canonicalize_url r.url, entryOf now r)) hrmem
    simpa [fetchCdp_url] using h2
  · -- every write is keyed by the canonical URL of the entry's raw URL
    intro p hp
    obtain ⟨r, _, rfl⟩ := List.mem_map.1 hp
    rfl
  · -- no write with method "http" carries this URL
    intro p hp hmethod
    obtain ⟨r, hr, rfl⟩ := List.mem_map.1 hp
    have hrmethod : r.method = "http" := hmethod
    rcases List.mem_append.1 hr with h12 | h3
    · rcases List.mem_append.1 h12 with h1 | h2
      · obtain ⟨x, _, rfl⟩ := List.mem_map.1 h1
        rw [fetchCdp_method] at hrmethod
        exact absurd hrmethod (by decide)
      · obtain ⟨q, hq, rfl⟩ := List.mem_map.1 h2
        have hok := List.of_mem_filter hq
        obtain ⟨x, _, rfl⟩ := List.mem_map.1 (List.mem_of_mem_filter hq)
        show (fetchHttp env x).url ≠ u
        rw [fetchHttp_url]
        intro hxu
        subst hxu
        simp only [okOrNoCdp, Option.isNone_some, Bool.or_false] at hok
        exact hnok (by simpa using hok)
    · obtain ⟨x, _, rfl⟩ := List.mem_map.1 h3
      rw [fetchCdp_method] at hrmethod
      exact absurd hrmethod (by decide)

/-- The all-failing oracle environment. -/
def envBoom : FetchEnv :=
  ⟨fun _ => Except.error "boom", fun s => s, fun _ => Except.error "dead",
   fun _ => Except.error "dead", fun _ => false⟩

theorem filterCandidates_empty_of_urls1 (cache0 : TextCache) (maxJobs : Nat)
    (refresh : Bool) (urls0 : List String)
    (h : (urls0.filter fun u => u ≠ "").isEmpty = true) :
    filterCandidates cache0 maxJobs refresh urls0 = [] := by
  have h' : urls0.filter (fun u => u ≠ "") = [] := List.isEmpty_iff.mp h
  simp only [ne_eq, decide_not] at h'
  simp [filterCandidates, dedupKeep, h']

theorem extractE_eq (env : FetchEnv) (now : Nat) (cache0 : TextCache)
    (cdpUrl : Option String) (maxJobs : Nat) (refresh : Bool)
    (urls0 : List String) :
    extractTextForUrlsE env now cache0 cdpUrl maxJobs refresh urls0
      = if (urls0.filter fun u => u ≠ "").isEmpty then
          Except.ok ⟨cache0, zeroStats, [], []⟩
        else
          match firstRaise canonRaise (precheckUrls maxJobs urls0) with
          | some e => Except.error e
          | none =>
              if (filterCandidates cache0 maxJobs refresh urls0).isEmpty then
                Except.ok ⟨cache0, zeroStats, [], []⟩
              else
                match firstRaise hostRaise
                    (filterCandidates cache0 maxJobs refresh urls0) with
                | some e => Except.error e
                | none => Except.ok (extractTextForUrls env now cache0 cdpUrl
                    maxJobs refresh urls0) := rfl

theorem extractE_ok (env : FetchEnv) (now : Nat) (cache0 : TextCache)
    (cdpUrl : Option String) (maxJobs : Nat) (refresh : Bool)
    (urls0 : List String) (st : EngState)
    (h : extractTextForUrlsE env now cache0 cdpUrl maxJobs refresh urls0
      = Except.ok st) :
    st = extractTextForUrls env now cache0 cdpUrl maxJobs refresh urls0 := by
  rw [extractE_eq] at h
  by_cases h1 : (urls0.filter fun u => u ≠ "").isEmpty = true
  · rw [if_pos h1] at h
    rw [← Except.ok.inj h]
    exact (extract_run_empty env now cache0 cdpUrl maxJobs refresh urls0
      (by rw [filterCandidates_empty_of_urls1 cache0 maxJobs refresh urls0 h1]; rfl)).symm
  · rw [if_neg h1] at h
    cases hc : firstRaise canonRaise (precheckUrls maxJobs urls0) with
    | some e => simp [hc] at h
    | none =>
        simp only [hc] at h
        by_cases hu : (filterCandidates cache0 maxJobs refresh urls0).isEmpty = true
        · rw [if_pos hu] at h
          rw [← Except.ok.inj h]
          exact (extract_run_empty env now cache0 cdpUrl maxJobs refresh
            urls0 hu).symm
        · rw [if_neg hu] at h
          cases hh : firstRaise hostRaise
              (filterCandidates cache0 maxJobs refresh urls0) with
          | some e => simp [hh] at h
          | none =>
              simp only [hh] at h
              exact (Except.ok.inj h).symm

theorem extract_records_every_candidate (env : FetchEnv) (now : Nat)
    (cache0 : TextCache) (cdpUrl : Option String) (maxJobs : Nat)
    (refresh : Bool) (urls0 : List String) (u : String)
    (hmem : u ∈ filterCandidates cache0 maxJobs refresh urls0) :
    ∃ p ∈ (extractTextForUrls env now cache0 cdpUrl maxJobs refresh urls0).recs,
      p.2.url = u := by
  have hE : (filterCandidates cache0 maxJobs refresh urls0).isEmpty = false := by
    cases h : filterCandidates cache0 maxJobs refresh urls0 with
    | nil => rw [h] at hmem; exact absurd hmem (List.not_mem_nil u)
    | cons a l => rfl
  rw [extract_run_nonempty env now cache0 cdpUrl maxJobs refresh urls0 hE]
  show ∃ p ∈ recsOf now (allResultsOf env cdpUrl
      (filterCandidates cache0 maxJobs refresh urls0)), p.2.url = u
  unfold recsOf
  by_cases hc : cdpFirst env u
  · have h1 : fetchCdp env cdpUrl u
        ∈ allResultsOf env cdpUrl (filterCandidates cache0 maxJobs refresh urls0) := by
      unfold allResultsOf
      exact List.mem_append_left _ (List.mem_append_left _
        (List.mem_map_of_mem _ (List.mem_filter.2 ⟨hmem, hc⟩)))
    exact ⟨_, List.mem_map_of_mem _ h1, fetchCdp_url env cdpUrl u⟩
  · have h_u_http : u ∈ httpFirstUrlsOf env
        (filterCandidates cache0 maxJobs refresh urls0) := by
      rw [httpFirstUrlsOf_eq]
      exact List.mem_filter.2 ⟨hmem, by simp [hc]⟩
    by_cases hok : okOrNoCdp cdpUrl (u, fetchHttp env u)
    · have hpair : (u, fetchHttp env u)
          ∈ (httpPairsOf env (filterCandidates cache0 maxJobs refresh urls0)).filter
            (okOrNoCdp cdpUrl) := by
        refine List.mem_filter.2 ⟨?_, hok⟩
        unfold httpPairsOf
        exact List.mem_map_of_mem _ h_u_http
      have h1 : fetchHttp env u
          ∈ allResultsOf env cdpUrl (filterCandidates cache0 maxJobs refresh urls0) := by
        unfold allResultsOf
        exact List.mem_append_left _ (List.mem_append_right _
          (List.mem_map_of_mem Prod.snd hpair))
      exact ⟨_, List.mem_map_of_mem _ h1, fetchHttp_url env u⟩
    · have h_u_fb : u ∈ fallbackUrlsOf env cdpUrl
          (filterCandidates cache0 maxJobs refresh urls0) := by
        rw [fallbackUrlsOf_eq]
        exact List.mem_filter.2 ⟨h_u_http, by simp [hok]⟩
      have h1 : fetchCdp env cdpUrl u
          ∈ allResultsOf env cdpUrl (filterCandidates cache0 maxJobs refresh urls0) := by
        unfold allResultsOf
        exact List.mem_append_right _ (List.mem_map_of_mem _ h_u_fb)
      exact ⟨_, List.mem_map_of_mem _ h1, fetchCdp_url env cdpUrl u⟩

/-- C8 — Error containment, corrected: an exception raised while fetching
one URL over HTTP or the browser is caught and becomes that URL's `error`
result (conjuncts 1–3), and whenever the batch runs to completion — the
raising engine returns `ok` — every URL surviving the candidate filters
has a recorded terminal cache write, whatever the oracles do (conjunct 4).
But exceptions do NOT only propagate from setup: `canonicalize_url` is
called on every deduped/capped candidate without a guard
(text_extraction.py line 190), so one malformed bracketed-host URL makes
the whole call raise `urlsplit`'s `ValueError` before any fetch, aborting
the batch (conjunct 5). -/
theorem extract_error_isolated :
    (∀ (env : FetchEnv) (u msg : String), env.httpGet u = Except.error msg →
        fetchHttp env u = ⟨u, "", "http", "error", some msg⟩)
    ∧ (∀ (env : FetchEnv) (ep u msg : String),
        strOccursIn "tanitjobs.com" (hostOf u) = false →
        env.cdpPage u = Except.error msg →
        fetchCdp env (some ep) u = ⟨u, "", "cdp", "error", some msg⟩)
    ∧ (∀ (env : FetchEnv) (ep u msg : String),
        strOccursIn "tanitjobs.com" (hostOf u) = true →
        env.tanitPage u = Except.error msg →
        fetchCdp env (some ep) u = ⟨u, "", "cdp", "error", some msg⟩)
    ∧ (∀ (env : FetchEnv) (now : Nat) (cache0 : TextCache)
        (cdpUrl : Option String) (maxJobs : Nat) (refresh : Bool)
        (urls0 : List String) (st : EngState) (u : String),
        extractTextForUrlsE env now cache0 cdpUrl maxJobs refresh urls0
          = Except.ok st →
        u ∈ filterCandidates cache0 maxJobs refresh urls0 →
        ∃ p ∈ st.recs, p.2.url = u)
    ∧ (∀ (env : FetchEnv) (now : Nat) (cache0 : TextCache)
        (cdpUrl : Option String) (maxJobs : Nat) (refresh : Bool)
        (urls0 : List String) (e : String),
        (urls0.filter fun u => u ≠ "").isEmpty = false →
        firstRaise canonRaise (precheckUrls maxJobs urls0) = some e →
        extractTextForUrlsE env now cache0 cdpUrl maxJobs refresh urls0
          = Except.error e) := by
  refine ⟨?_, ?_, ?_, ?_, ?_⟩
  · intro env u msg h
    unfold fetchHttp
    rw [h]
  · intro env ep u msg hhost hor
    unfold fetchCdp
    dsimp only
    rw [if_neg (by simp [hhost]), hor]
  · intro env ep u msg hhost hor
    unfold fetchCdp
    dsimp only
    rw [if_pos (by simp [hhost]), hor]
  · intro env now cache0 cdpUrl maxJobs refresh urls0 st u hE hmem
    rw [extractE_ok env now cache0 cdpUrl maxJobs refresh urls0 st hE]
    exact extract_records_every_candidate env now cache0 cdpUrl maxJobs
      refresh urls0 u hmem
  · intro env now cache0 cdpUrl maxJobs refresh urls0 e h1 hraise
    rw [extractE_eq, if_neg (by rw [h1]; exact Bool.false_ne_true), hraise]

set_option maxRecDepth 40000 in
/-- Counterexample to C8 as stated: with a well-formed and a malformed
bracketed-host URL in the batch, `canonicalize_url` raises
`ValueError("Invalid IPv6 URL")` and the whole `extract_text_for_urls`
call aborts with it — even though the first URL survived the candidate
filters — so an exception propagated from the per-URL path, not from
setup. -/
theorem extract_batch_abort_cex :
    canonicalize_urlE "http://[x" = Except.error "Invalid IPv6 URL"
    ∧ "http://a.com/1" ∈ filterCandidates [] 50 false
        ["http://a.com/1", "http://[x"]
    ∧ extractTextForUrlsE envBoom 7 [] none 50 false
        ["http://a.com/1", "http://[x"]
      = Except.error "Invalid IPv6 URL" :=
  ⟨rfl, by decide, rfl⟩

set_option maxRecDepth 40000 in
/-- Witness for the amended C8: a fetch exception becomes an `error`
result; in a completed batch of two healthy URLs the second is still
recorded after the first URL's failure; and a batch holding a malformed
bracketed-host URL aborts with the `urlsplit` message. -/
theorem extract_error_isolated_witness :
    envBoom.httpGet "u" = Except.error "boom"
    ∧ fetchHttp envBoom "u" = ⟨"u", "", "http", "error", some "boom"⟩
    ∧ "http://a.com/2" ∈ filterCandidates [] 50 false
        ["http://a.com/1", "http://a.com/2"]
    ∧ (∃ p ∈ (extractTextForUrls envBoom 7 [] none 50 false
        ["http://a.com/1", "http://a.com/2"]).recs, p.2.url = "http://a.com/2")
    ∧ extractTextForUrlsE envBoom 9 [] none 50 false
        ["http://b.com/1", "http://[y"]
      = Except.error "Invalid IPv6 URL" :=
  ⟨rfl,
   extract_error_isolated.1 envBoom "u" "boom" rfl,
   by decide,
   extract_error_isolated.2.2.2.1 envBoom 7 [] none 50 false
     ["http://a.com/1", "http://a.com/2"]
     (extractTextForUrls envBoom 7 [] none 50 false
       ["http://a.com/1", "http://a.com/2"])
     "http://a.com/2" rfl (by decide),
   extract_error_isolated.2.2.2.2 envBoom 9 [] none 50 false
     ["http://b.com/1", "http://[y"] "Invalid IPv6 URL" rfl rfl⟩

set_option maxRecDepth 40000 in
/-- Witness for the amended C7 at the blocked-HTTP environment. -/
theorem extract_fallback_sequencing_witness :
    "http://ex.com/j" ∈ filterCandidates [] 50 false ["http://ex.com/j"]
    ∧ cdpFirst envHttpBlocked "http://ex.com/j" = false
    ∧ (fetchHttp envHttpBlocked "http://ex.com/j").status ≠ "ok"
    ∧ cacheGet (extractTextForUrls envHttpBlocked 3 [] (some "ws") 50 false
        ["http://ex.com/j"]).cache (canonicalize_url "http://ex.com/j")
      = some (entryOf 3 (fetchCdp envHttpBlocked (some "ws") "http://ex.com/j")) :=
  ⟨by decide, by decide, by decide,
   (extract_fallback_sequencing envHttpBlocked 3 [] "ws" 50 false
      ["http://ex.com/j"] "http://ex.com/j" (by decide) (by decide) (by decide)
      (by decide)).2.1⟩

/-! ## Browser session manager — `src/jobscraper/cdp_session.py`

`get_cdp_browser` holds one process-wide connection (`_BROWSER`, `_CDP_URL`),
modelled as `CdpState` with sessions as opaque `Nat` handles.  The
`connect_over_cdp` call is an oracle from the attempt index to an optional
session (`none` = the call raised).  The outcome records the returned value
(`Except` for `raise_on_fail`), which sessions were closed, how many connect
attempts ran, and the sleeps performed (`backoff_s * 2**attempt`, as ℚ; the
Python float multiplication by a power of two is exact).  The module lock
serializes callers; a single call is modelled.  `_ensure_playwright` and the
`atexit` teardown have no observable effect on the claim. -/

structure CdpState where
  browser : Option Nat
  cdpUrl : Option String
deriving DecidableEq

structure CdpOutcome where
  ret : Except String (Option Nat)
  closed : List Nat
  attempts : Nat
  sleeps : List ℚ
  finalState : CdpState

/-- The `for attempt in range(retries)` loop: try `connect attempt`; on an
exception sleep `backoff_s * 2**attempt` and continue.  Returns the session
(if any) and the sleeps performed, from attempt index `attempt` with
`r` attempts remaining. -/
def cdpRetry (connect : Nat → Option Nat) (backoffS : ℚ) :
    Nat → Nat → Option Nat × List ℚ
  | _, 0 => (none, [])
  | attempt, r + 1 =>
      match connect attempt with
      | some s => (some s, [])
      | none =>
          let rest := cdpRetry connect backoffS (attempt + 1) r
          (rest.1, backoffS * 2 ^ attempt :: rest.2)

/-- The message of the `RuntimeError` raised when `raise_on_fail` is set. -/
def cdpFailMsg (cdpUrl : String) (retries : Nat) : String :=
  "Failed to connect to CDP at " ++ cdpUrl ++ " after " ++ toString retries
    ++ " attempts. Try restarting Chrome/Edge with --remote-debugging-port"
    ++ " and ensure /json/version is reachable."

/-- `get_cdp_browser`: empty URL returns None untouched; a held session for
the same endpoint is returned as is; otherwise the held session (if any) is
closed, the state reset, and the retry loop runs — on success the session is
stored, on total failure the state stays empty and the call returns None or
raises if `raise_on_fail` and at least one attempt failed (`last_err`). -/
def get_cdp_browser (connect : Nat → Option Nat) (retries : Nat)
    (backoffS : ℚ) (raiseOnFail : Bool) (cdpUrl : String) (st : CdpState) :
    CdpOutcome :=
  if cdpUrl = "" then ⟨.ok none, [], 0, [], st⟩
  else if st.browser.isSome && st.cdpUrl == some cdpUrl then
    ⟨.ok st.browser, [], 0, [], st⟩
  else
    let closed := match st.browser with | some b => [b] | none => []
    let res := cdpRetry connect backoffS 0 retries
    match res.1 with
    | some s => ⟨.ok (some s), closed, res.2.length + 1, res.2, ⟨some s, some cdpUrl⟩⟩
    | none =>
        if raiseOnFail && decide (0 < retries) then
          ⟨.error (cdpFailMsg cdpUrl retries), closed, retries, res.2, ⟨none, none⟩⟩
        else ⟨.ok none, closed, retries, res.2, ⟨none, none⟩⟩

theorem cdpRetry_all_fail (connect : Nat → Option Nat) (backoffS : ℚ) :
    ∀ (r attempt : Nat), (∀ i, attempt ≤ i → i < attempt + r → connect i = none) →
    cdpRetry connect backoffS attempt r
      = (none, (List.range r).map fun i => backoffS * 2 ^ (attempt + i)) := by
  intro r
  induction r with
  | zero => intro attempt _; rfl
  | succ r ih =>
      intro attempt hfail
      have h0 : connect attempt = none :=
        hfail attempt (Nat.le_refl _) (by omega)
      have hrest := ih (attempt + 1) (fun i h1 h2 => hfail i (by omega) (by omega))
      show (match connect attempt with
            | some s => (some s, [])
            | none =>
                let rest := cdpRetry connect backoffS (attempt + 1) r
                (rest.1, backoffS * 2 ^ attempt :: rest.2))
          = (none, (List.range (r + 1)).map fun i => backoffS * 2 ^ (attempt + i))
      rw [h0, hrest]
      have hmap : (List.range (r + 1)).map (fun i => backoffS * 2 ^ (attempt + i))
          = backoffS * 2 ^ attempt
            :: (List.range r).map fun i => backoffS * 2 ^ (attempt + 1 + i) := by
        rw [List.range_succ_eq_map, List.map_cons, List.map_map]
        refine congrArg₂ List.cons (by rw [Nat.add_zero]) ?_
        refine congrArg (fun f => List.map f (List.range r)) ?_
        funext i
        show backoffS * 2 ^ (attempt + (i + 1)) = backoffS * 2 ^ (attempt + 1 + i)
        rw [show attempt + (i + 1) = attempt + 1 + i from by omega]
      rw [hmap]

/-- C9 — Browser session singleton: a call with the endpoint of the held
session returns that session unchanged, with no connect attempt and nothing
closed; a call with a different endpoint closes the held session first and
then connects anew; the retry loop makes up to `retries` attempts sleeping
`backoff_s * 2**attempt` after each failure, and when every attempt fails
the call returns None — or raises — with the held state cleared. -/
theorem cdp_session_singleton :
    (∀ (connect : Nat → Option Nat) (retries : Nat) (backoffS : ℚ)
        (raiseOnFail : Bool) (ep : String) (b : Nat), ep ≠ "" →
        get_cdp_browser connect retries backoffS raiseOnFail ep ⟨some b, some ep⟩
          = ⟨.ok (some b), [], 0, [], ⟨some b, some ep⟩⟩)
    ∧ (∀ (connect : Nat → Option Nat) (retries : Nat) (backoffS : ℚ)
        (raiseOnFail : Bool) (ep ep' : String) (b : Nat), ep ≠ "" → ep' ≠ ep →
        (get_cdp_browser connect retries backoffS raiseOnFail ep ⟨some b, some ep'⟩).closed
          = [b]
        ∧ (1 ≤ retries →
            1 ≤ (get_cdp_browser connect retries backoffS raiseOnFail ep
              ⟨some b, some ep'⟩).attempts))
    ∧ (∀ (connect : Nat → Option Nat) (retries : Nat) (backoffS : ℚ)
        (raiseOnFail : Bool) (ep : String) (st : CdpState), ep ≠ "" →
        (st.browser.isSome && st.cdpUrl == some ep) = false →
        (∀ i, i < retries → connect i = none) → 1 ≤ retries →
        (get_cdp_browser connect retries backoffS raiseOnFail ep st).sleeps
          = (List.range retries).map (fun i => backoffS * 2 ^ i)
        ∧ (get_cdp_browser connect retries backoffS raiseOnFail ep st).ret
          = (if raiseOnFail then Except.error (cdpFailMsg ep retries)
             else Except.ok none)
        ∧ (get_cdp_browser connect retries backoffS raiseOnFail ep st).finalState
          = ⟨none, none⟩)
    ∧ (∀ (connect : Nat → Option Nat) (retries : Nat) (backoffS : ℚ)
        (raiseOnFail : Bool) (ep : String) (st : CdpState) (s : Nat), ep ≠ "" →
        (st.browser.isSome && st.cdpUrl == some ep) = false →
        connect 0 = some s → 1 ≤ retries →
        (get_cdp_browser connect retries backoffS raiseOnFail ep st).ret
          = Except.ok (some s)
        ∧ (get_cdp_browser connect retries backoffS raiseOnFail ep st).finalState
          = ⟨some s, some ep⟩) := by
  refine ⟨?_, ?_, ?_, ?_⟩
  · intro connect retries backoffS raiseOnFail ep b hep
    unfold get_cdp_browser
    rw [if_neg hep, if_pos (by simp)]
  · intro connect retries backoffS raiseOnFail ep ep' b hep hne
    unfold get_cdp_browser
    rw [if_neg hep, if_neg (by simp [hne])]
    dsimp only
    cases hres : (cdpRetry connect backoffS 0 retries).1 with
    | some s => exact ⟨rfl, fun _ => Nat.le_add_left 1 _⟩
    | none =>
        refine ⟨?_, ?_⟩
        · rw [apply_ite (fun o : CdpOutcome => o.closed)]
          simp
        · intro hr
          rw [apply_ite (fun o : CdpOutcome => o.attempts)]
          simpa using hr
  · intro connect retries backoffS raiseOnFail ep st hep hguard hfail hr
    unfold get_cdp_browser
    rw [if_neg hep, if_neg (by simp [hguard])]
    have hloop := cdpRetry_all_fail connect backoffS retries 0
      (fun i _ h2 => hfail i (by omega))
    dsimp only
    rw [hloop]
    dsimp only
    have hpow : ((List.range retries).map fun i => backoffS * 2 ^ (0 + i))
        = (List.range retries).map fun i => backoffS * 2 ^ i := by
      refine congrArg (fun f => List.map f (List.range retries)) ?_
      funext i
      rw [Nat.zero_add]
    refine ⟨?_, ?_, ?_⟩
    · rw [apply_ite (fun o : CdpOutcome => o.sleeps)]
      simpa using hpow
    · cases hraise : raiseOnFail with
      | true =>
          have hcond : (true && decide (0 < retries)) = true := by
            simp
            omega
          rw [if_pos hcond]
          rfl
      | false => rfl
    · rw [apply_ite (fun o : CdpOutcome => o.finalState)]
      simp
  · intro connect retries backoffS raiseOnFail ep st s hep hguard h0 hr
    unfold get_cdp_browser
    rw [if_neg hep, if_neg (by simp [hguard])]
    obtain ⟨r, rfl⟩ : ∃ r, retries = r + 1 := by
      cases retries with
      | zero => omega
      | succ r => exact ⟨r, rfl⟩
    have hloop : cdpRetry connect backoffS 0 (r + 1) = (some s, []) := by
      show (match connect 0 with
            | some s => (some s, [])
            | none =>
                let rest := cdpRetry connect backoffS (0 + 1) r
                (rest.1, backoffS * 2 ^ 0 :: rest.2)) = (some s, [])
      rw [h0]
    dsimp only
    rw [hloop]
    exact ⟨rfl, rfl⟩

/-- Witness for C9: a held session returned unchanged for the same endpoint,
and a two-attempt total failure with its exact backoff sleeps. -/
theorem cdp_session_singleton_witness :
    ("ws" : String) ≠ ""
    ∧ get_cdp_browser (fun _ => none) 2 1 true "ws" ⟨some 5, some "ws"⟩
      = ⟨.ok (some 5), [], 0, [], ⟨some 5, some "ws"⟩⟩
    ∧ (get_cdp_browser (fun _ => none) 2 1 true "ws" ⟨none, none⟩).sleeps
      = (List.range 2).map (fun i => (1 : ℚ) * 2 ^ i)
    ∧ (get_cdp_browser (fun _ => none) 2 1 true "ws" ⟨none, none⟩).ret
      = (if true then Except.error (cdpFailMsg "ws" 2) else Except.ok none) :=
  ⟨by decide,
   cdp_session_singleton.1 (fun _ => none) 2 1 true "ws" 5 (by decide),
   (cdp_session_singleton.2.2.1 (fun _ => none) 2 1 true "ws" ⟨none, none⟩
     (by decide) (by decide) (fun i _ => rfl) (by decide)).1,
   (cdp_session_singleton.2.2.1 (fun _ => none) 2 1 true "ws" ⟨none, none⟩
     (by decide) (by decide) (fun i _ => rfl) (by decide)).2.1⟩

end JobFormer
